import Mathlib

/-!
# Verification of the backend_todo task-hierarchy core

Shallow embedding of the authenticated multi-tenant variant of the
repository (src/src/controllers/todo.controller.js, src/src/utils/supabase.js,
the timeline-event utility).  Dates are modelled by their millisecond
timestamps (`Int`); database rows are lists; the append-only audit log is a
list of events.  Request-body values coming from JSON/FormData are modelled
by a small JavaScript-value type with `Option` marking an absent
(`undefined`) field.  Object-storage and notification traffic are recorded
as explicit effect lists.
-/

namespace BackendTodo

/-- Task status enumeration (prisma enum TodoStatus). -/
inductive Status where
  | TODO
  | IN_PROGRESS
  | DONE
deriving DecidableEq, Repr

/-- String rendering of a status, as interpolated into audit messages. -/
def Status.render : Status → String
  | .TODO => "TODO"
  | .IN_PROGRESS => "IN_PROGRESS"
  | .DONE => "DONE"

/-- Audit event types (prisma enum TimelineEventType). -/
inductive EventType where
  | CREATED
  | UPDATED
  | STATUS_CHANGED
  | TIMELINE_UPDATED
  | IMAGE_UPDATED
  | SUBTODO_ADDED
deriving DecidableEq, Repr

/-- A Todo row.  `startDate`/`endDate` are optional instants (timestamps). -/
structure Todo where
  id : Nat
  title : String
  description : Option String
  imageUrl : Option String
  startDate : Option Int
  endDate : Option Int
  status : Status
  parentId : Option Nat
  userId : Nat
deriving DecidableEq, Repr

/-- An audit (timeline) event row, as written by createTimelineEvent. -/
structure TimelineEvent where
  todoId : Nat
  type : EventType
  message : String
  actorUserId : Option Nat
deriving DecidableEq, Repr

/-- Database state: the Todo table (in creation order) and the append-only
audit log (in creation order). -/
structure DB where
  todos : List Todo
  events : List TimelineEvent
deriving DecidableEq, Repr

/-! ## 4.2 Timeline Rollup Calculator (computeTimelineFromSubtodos) -/

/-- Translation of computeTimelineFromSubtodos (src/src/utils/supabase.js).
Null dates are dropped (`value instanceof Date` filter); `Math.min`/`Math.max`
over the spread array is a fold of the binary min/max over the first element. -/
def computeTimelineFromSubtodos (subtodos : List Todo) : Option Int × Option Int :=
  if subtodos.length = 0 then (none, none)
  else
    let startDates := subtodos.filterMap (fun t => t.startDate)
    let endDates := subtodos.filterMap (fun t => t.endDate)
    let startDate :=
      match startDates with
      | [] => none
      | d :: ds => some (ds.foldl min d)
    let endDate :=
      match endDates with
      | [] => none
      | d :: ds => some (ds.foldl max d)
    (startDate, endDate)

/-! ## JS value and request parsing helpers

Request-body values are modelled by `JsVal` (`Option JsVal` marks an absent
field, i.e. `undefined`).  Date strings are abstracted: a value that
`new Date(...)` accepts is modelled as `num` carrying its millisecond
timestamp, an unparseable non-empty string as `str`.  Numeric route/body ids
are modelled post-`Number.parseInt` as `Option Int` (`none` = NaN). -/

inductive JsVal where
  | null
  | str (s : String)
  | num (n : Int)
deriving DecidableEq, Repr

def jsValToString : JsVal → String
  | .null => "null"
  | .str s => s
  | .num n => toString n

/-- parseTodoId: `Number.parseInt` result must be a positive integer. -/
def parseTodoId : Option Int → Except Nat Nat
  | none => .error 400
  | some n => if n ≤ 0 then .error 400 else .ok n.toNat

/-- parseTodoId applied to a raw body value (createTodo's parentId). -/
def parseTodoIdVal : JsVal → Except Nat Nat
  | .num n => if n ≤ 0 then .error 400 else .ok n.toNat
  | _ => .error 400

/-- JS String.prototype.trim, as an executable list-based definition. -/
def jsTrim (s : String) : String :=
  ⟨((s.data.dropWhile Char.isWhitespace).reverse.dropWhile Char.isWhitespace).reverse⟩

/-- JS String.prototype.toUpperCase (ASCII, which covers the status tokens). -/
def strUpper (s : String) : String := ⟨s.data.map Char.toUpper⟩

def parseStatusCore (v : JsVal) : Except Nat Status :=
  let normalized := strUpper (jsTrim (jsValToString v))
  if normalized == "TODO" then .ok .TODO
  else if normalized == "IN_PROGRESS" then .ok .IN_PROGRESS
  else if normalized == "DONE" then .ok .DONE
  else .error 400

/-- parseStatus with required = true (undefined/null/"" rejected). -/
def parseStatusRequired : Option JsVal → Except Nat Status
  | none => .error 400
  | some .null => .error 400
  | some (.str "") => .error 400
  | some v => parseStatusCore v

/-- parseStatus with required = false (undefined/null/"" yield undefined). -/
def parseStatusOpt : Option JsVal → Except Nat (Option Status)
  | none => .ok none
  | some .null => .ok none
  | some (.str "") => .ok none
  | some v => (parseStatusCore v).map some

/-- JS truthiness of an optional id (null/undefined and 0 are falsy). -/
def jsTruthyId : Option Nat → Bool
  | none => false
  | some p => p != 0

/-- JS truthiness of an optional string (null/undefined and "" are falsy). -/
def jsTruthyStr : Option String → Bool
  | none => false
  | some s => s != ""

/-! ## Effects and operation results -/

inductive StorageOp where
  | upload (name : String)
  | delete (path : String)
deriving DecidableEq, Repr

/-- One `todoEvents.emit("change", ...)` payload: the owner id, the event
discriminator, and the affected task ids (the serialized payload carries the
tree nodes for exactly these ids) or removed ids. -/
structure Broadcast where
  userId : Nat
  kind : String
  todoIds : List Nat
  removedIds : List Nat
deriving DecidableEq, Repr

/-- Observable outcome of one controller call: final database, HTTP status
code, success flag, ids of the task nodes in the response data, emitted
change events, and object-storage traffic (in order). -/
structure OpResult where
  db : DB
  code : Nat
  success : Bool
  dataIds : List Nat
  broadcasts : List Broadcast
  storage : List StorageOp
deriving DecidableEq, Repr

def errResult (db : DB) (c : Nat) (ops : List StorageOp) : OpResult :=
  { db := db, code := c, success := false, dataIds := [], broadcasts := [], storage := ops }

def mkEvent (todoId : Nat) (ty : EventType) (message : String) (actor : Nat) : TimelineEvent :=
  { todoId := todoId, type := ty, message := message, actorUserId := some actor }

/-! ## Hierarchy traversal -/

/-- Translation of buildTodoTree.  The first component is the list of ids
pushed to `roots` (in order); the second is the list of (parentId, childId)
attachments pushed into parents' subtodo lists (in order).  A node whose
truthy parent reference is not a key of the id map is pushed nowhere. -/
def buildTodoTree (todos : List Todo) : List Nat × List (Nat × Nat) :=
  let ids := todos.map (fun t => t.id)
  todos.foldl
    (fun acc t =>
      if jsTruthyId t.parentId then
        match t.parentId with
        | some p => if p ∈ ids then (acc.1, acc.2 ++ [(p, t.id)]) else acc
        | none => acc
      else (acc.1 ++ [t.id], acc.2))
    ([], [])

/-- Specification view of the root contribution of one node. -/
def rootEntry (t : Todo) : Option Nat :=
  if jsTruthyId t.parentId then none else some t.id

/-- Specification view of the attach contribution of one node. -/
def edgeEntry (ids : List Nat) (t : Todo) : Option (Nat × Nat) :=
  if jsTruthyId t.parentId then
    match t.parentId with
    | some p => if p ∈ ids then some (p, t.id) else none
    | none => none
  else none

/-- Translation of collectDescendantIds' BFS loop body; `fuel` bounds the
number of iterations (the JS loop runs until the queue is empty, which on
acyclic states happens within `todos.length + 1` iterations, proved below). -/
def childrenOf (todos : List Todo) (uid pid : Nat) : List Todo :=
  todos.filter (fun t => t.parentId == some pid && t.userId == uid)

def childIds (todos : List Todo) (uid pid : Nat) : List Nat :=
  (childrenOf todos uid pid).map (fun t => t.id)

def collectGo (todos : List Todo) (uid : Nat) : Nat → List Nat → List Nat → List Nat
  | 0, _, acc => acc
  | _ + 1, [], acc => acc
  | fuel + 1, c :: q, acc =>
    collectGo todos uid fuel (q ++ childIds todos uid c) (acc ++ childIds todos uid c)

def collectDescendantIds (todos : List Todo) (rootId uid : Nat) : List Nat :=
  collectGo todos uid (todos.length + 1) [rootId] []

/-- Whether the BFS queue empties within `fuel` iterations (the real loop's
termination condition). -/
def completesB (todos : List Todo) (uid : Nat) : Nat → List Nat → Bool
  | _, [] => true
  | 0, _ :: _ => false
  | fuel + 1, c :: q => completesB todos uid fuel (q ++ childIds todos uid c)

/-- c is an owner-scoped child of p. -/
def isChildOf (todos : List Todo) (uid c p : Nat) : Prop :=
  ∃ t ∈ todos, t.id = c ∧ t.userId = uid ∧ t.parentId = some p

/-- Strict descendants of `root` within one owner's task set. -/
inductive IsStrictDescendant (todos : List Todo) (uid root : Nat) : Nat → Prop where
  | base {c : Nat} : isChildOf todos uid c root → IsStrictDescendant todos uid root c
  | step {p c : Nat} : IsStrictDescendant todos uid root p → isChildOf todos uid c p →
      IsStrictDescendant todos uid root c

def rankOk (rank : Nat → Nat) (t : Todo) : Bool :=
  match t.parentId with
  | none => true
  | some p => decide (rank p < rank t.id)

/-- Acyclicity of the parent graph, witnessed by a rank function that
strictly increases from parent to child. -/
abbrev RankedBy (todos : List Todo) (rank : Nat → Nat) : Prop :=
  ∀ t ∈ todos, rankOk rank t = true

/-- Primary keys are unique. -/
abbrev UniqueIds (todos : List Todo) : Prop := (todos.map (fun t => t.id)).Nodup

/-! ## Status operations -/

def findTodo (todos : List Todo) (id uid : Nat) : Option Todo :=
  todos.find? (fun t => t.id == id && t.userId == uid)

def setStatus (todos : List Todo) (id : Nat) (s : Status) : List Todo :=
  todos.map (fun t => if t.id = id then { t with status := s } else t)

def setStatusMany (todos : List Todo) (ids : List Nat) (s : Status) : List Todo :=
  todos.map (fun t => if t.id ∈ ids then { t with status := s } else t)

/-- The DONE cascade: bulk updateMany over the BFS-collected descendants. -/
def cascadeDone (db : DB) (id uid : Nat) : DB :=
  let ds := collectDescendantIds db.todos id uid
  if 0 < ds.length then { db with todos := setStatusMany db.todos ds .DONE } else db

def statusChangedMessage (old new : Status) : String :=
  "Status changed from " ++ old.render ++ " to " ++ new.render

/-- Translation of updateTodoStatus. -/
def updateTodoStatus (db : DB) (uid : Nat) (idVal : Option Int) (statusVal : Option JsVal) :
    OpResult :=
  match parseTodoId idVal with
  | .error c => errResult db c []
  | .ok id =>
    match parseStatusRequired statusVal with
    | .error c => errResult db c []
    | .ok status =>
      match findTodo db.todos id uid with
      | none => errResult db 404 []
      | some existing =>
        if existing.status = status then
          { db := db, code := 200, success := true,
            dataIds := if db.todos.any (fun t => t.id == id) then [id] else [],
            broadcasts := [], storage := [] }
        else
          let db2 : DB :=
            { todos := setStatus db.todos id status,
              events := db.events ++
                [mkEvent id .STATUS_CHANGED (statusChangedMessage existing.status status) uid] }
          let db3 : DB := if status = .DONE then cascadeDone db2 id uid else db2
          let found := db3.todos.any (fun t => t.id == id)
          { db := db3, code := 200, success := true,
            dataIds := if found then [id] else [],
            broadcasts := if found then [⟨uid, "status_single", [id], []⟩] else [],
            storage := [] }

/-! ## Batch status update -/

/-- JS `Map.set`: overwrite in place or append; first-insertion order. -/
def mapSet (m : List (Nat × Status)) (k : Nat) (v : Status) : List (Nat × Status) :=
  if m.any (fun p => p.1 == k) then m.map (fun p => if p.1 == k then (k, v) else p)
  else m ++ [(k, v)]

/-- Building normalizedUpdates from the raw updates array. -/
def parseBatchUpdates : List (Option Int × Option JsVal) → List (Nat × Status) →
    Except Nat (List (Nat × Status))
  | [], m => .ok m
  | (idv, sv) :: rest, m =>
    match parseTodoId idv with
    | .error c => .error c
    | .ok k =>
      match parseStatusRequired sv with
      | .error c => .error c
      | .ok s => parseBatchUpdates rest (mapSet m k s)

/-- The transaction body: sequential processing of the normalized entries;
a missing id aborts the whole transaction (rollback at the call site). -/
def batchTxGo (uid : Nat) (db : DB) : List (Nat × Status) → List Nat →
    Except Nat (DB × List Nat)
  | [], processed => .ok (db, processed)
  | (k, s) :: rest, processed =>
    match findTodo db.todos k uid with
    | none => .error 404
    | some existing =>
      if existing.status = s then batchTxGo uid db rest processed
      else
        let db2 : DB :=
          { todos := setStatus db.todos k s,
            events := db.events ++
              [mkEvent k .STATUS_CHANGED (statusChangedMessage existing.status s) uid] }
        let db3 : DB := if s = .DONE then cascadeDone db2 k uid else db2
        batchTxGo uid db3 rest (processed ++ [k])

/-- Translation of updateTodoStatusesBatch.  A failed transaction commits
nothing: the result carries the original database. -/
def updateTodoStatusesBatch (db : DB) (uid : Nat) (input : List (Option Int × Option JsVal)) :
    OpResult :=
  if input.length = 0 then errResult db 400 []
  else
    match parseBatchUpdates input [] with
    | .error c => errResult db c []
    | .ok m =>
      if m.length = 0 then
        { db := db, code := 200, success := true, dataIds := [], broadcasts := [], storage := [] }
      else
        match batchTxGo uid db m [] with
        | .error c => errResult db c []
        | .ok (db2, processed) =>
          if processed.length = 0 then
            { db := db2, code := 200, success := true, dataIds := [],
              broadcasts := [], storage := [] }
          else
            let ids := processed.filter (fun k => db2.todos.any (fun t => t.id == k))
            { db := db2, code := 200, success := true, dataIds := ids,
              broadcasts := [⟨uid, "status_batch", ids, []⟩], storage := [] }

/-! ## updateTodo -/

structure UpdateBody where
  title : Option JsVal
  description : Option JsVal
  startDate : Option JsVal
  endDate : Option JsVal
  imageUrl : Option JsVal
deriving DecidableEq, Repr

def shouldRemoveImage : JsVal → Bool
  | .null => true
  | .str s => s == "" || s == "null" || jsTrim s == ""
  | .num _ => false

/-- The image block of updateTodo: storage traffic, the pending imageUrl
write (outer none = no write; some none = set NULL), and whether "image" was
pushed to changedFields.  The uploaded object's public URL is abstracted as
a function of the file name. -/
def imageStep (ex : Todo) (file : Option String) (imageUrlField : Option JsVal) :
    List StorageOp × Option (Option String) × Bool :=
  match file with
  | some name =>
    let delOps :=
      match ex.imageUrl with
      | some u => if u == "" then [] else [StorageOp.delete u]
      | none => []
    (delOps ++ [StorageOp.upload name], some (some ("uploads/" ++ name)), true)
  | none =>
    match imageUrlField with
    | none => ([], none, false)
    | some v =>
      if shouldRemoveImage v then
        match ex.imageUrl with
        | some u => if u == "" then ([], none, false) else ([StorageOp.delete u], some none, true)
        | none => ([], none, false)
      else ([], none, false)

def titleStep (ex : Todo) : Option JsVal → Except Nat (Option String × Bool)
  | none => .ok (none, false)
  | some (.str s) =>
    if jsTrim s == "" then .error 400
    else if jsTrim s == ex.title then .ok (none, false)
    else .ok (some (jsTrim s), true)
  | some _ => .error 400

def descStep (ex : Todo) : Option JsVal → Except Nat (Option (Option String) × Bool)
  | none => .ok (none, false)
  | some .null =>
    if ex.description = none then .ok (none, false) else .ok (some none, true)
  | some (.str s) =>
    let normalized : Option String := if jsTrim s == "" then none else some (jsTrim s)
    if normalized = ex.description then .ok (none, false) else .ok (some normalized, true)
  | some (.num _) => .error 400

def parseNullableDate : JsVal → Except Nat (Option Int)
  | .null => .ok none
  | .str s => if s == "" then .ok none else .error 400
  | .num n => .ok (some n)

def dateChanged (parsed old : Option Int) : Bool :=
  match parsed, old with
  | some _, none => true
  | none, some _ => true
  | some a, some b => a != b
  | none, none => false

def nonSubDateField (old : Option Int) : Option JsVal → Except Nat (Option (Option Int))
  | none => .ok none
  | some v =>
    match parseNullableDate v with
    | .error c => .error c
    | .ok parsed => if dateChanged parsed old then .ok (some parsed) else .ok none

def assertValidTimeline (s e : Option Int) : Except Nat Unit :=
  match s, e with
  | some a, some b => if b < a then .error 400 else .ok ()
  | _, _ => .ok ()

/-- The date block of updateTodo.  For a subtodo (truthy parentId) a
supplied date field clears a non-null stored date; otherwise the field is
parsed, compared, and the resulting window validated. -/
def datesStep (isSub : Bool) (ex : Todo) (sdF edF : Option JsVal) :
    Except Nat (Option (Option Int) × Option (Option Int) × Bool) :=
  if isSub then
    let sU : Option (Option Int) :=
      if sdF.isSome && ex.startDate.isSome then some none else none
    let eU : Option (Option Int) :=
      if edF.isSome && ex.endDate.isSome then some none else none
    .ok (sU, eU, sU.isSome || eU.isSome)
  else
    match nonSubDateField ex.startDate sdF with
    | .error c => .error c
    | .ok sU =>
      match nonSubDateField ex.endDate edF with
      | .error c => .error c
      | .ok eU =>
        if sU.isSome || eU.isSome then
          let nextS := match sU with | some v => v | none => ex.startDate
          let nextE := match eU with | some v => v | none => ex.endDate
          match assertValidTimeline nextS nextE with
          | .error c => .error c
          | .ok _ => .ok (sU, eU, true)
        else .ok (sU, eU, false)

structure Updates where
  imageUrlU : Option (Option String)
  titleU : Option String
  descriptionU : Option (Option String)
  startDateU : Option (Option Int)
  endDateU : Option (Option Int)
deriving DecidableEq, Repr

def Updates.isEmpty (u : Updates) : Bool :=
  u.imageUrlU.isNone && u.titleU.isNone && u.descriptionU.isNone &&
    u.startDateU.isNone && u.endDateU.isNone

def applyUpdates (t : Todo) (u : Updates) : Todo :=
  { t with
    imageUrl := match u.imageUrlU with | some v => v | none => t.imageUrl
    title := match u.titleU with | some v => v | none => t.title
    description := match u.descriptionU with | some v => v | none => t.description
    startDate := match u.startDateU with | some v => v | none => t.startDate
    endDate := match u.endDateU with | some v => v | none => t.endDate }

def updateRow (todos : List Todo) (id : Nat) (u : Updates) : List Todo :=
  todos.map (fun t => if t.id = id then applyUpdates t u else t)

def changedFieldsList (img ttl dsc : Bool) : List String :=
  (if img then ["image"] else []) ++ (if ttl then ["title"] else []) ++
    (if dsc then ["description"] else [])

def updatedMessage (fields : List String) : String :=
  if fields.contains "image" then
    let others := fields.filter (fun f => f != "image")
    if 0 < others.length then "Updated " ++ String.intercalate ", " others ++ " and image"
    else "Image updated"
  else "Updated " ++ String.intercalate ", " fields

/-- Date.toISOString is abstracted to an injective rendering of the stamp. -/
def isoString (n : Int) : String := toString n

def timelineMessage (s e : Option Int) : String :=
  match s, e with
  | some a, some b => "Timeline updated to " ++ isoString a ++ " -> " ++ isoString b
  | some a, none => "Timeline updated. Start: " ++ isoString a ++ ", no end date"
  | none, some b => "Timeline updated. End: " ++ isoString b ++ ", no start date"
  | none, none => "Timeline cleared"

/-- Translation of updateTodo.  Storage traffic from the image block happens
before title/description/date validation, so an error result can carry
non-empty storage traffic while leaving the database untouched. -/
def updateTodo (db : DB) (uid : Nat) (idVal : Option Int) (body : UpdateBody)
    (file : Option String) : OpResult :=
  match parseTodoId idVal with
  | .error c => errResult db c []
  | .ok id =>
    match findTodo db.todos id uid with
    | none => errResult db 404 []
    | some ex =>
      let isSub := jsTruthyId ex.parentId
      match imageStep ex file body.imageUrl with
      | (ops, imgU, imgCh) =>
        match titleStep ex body.title with
        | .error c => errResult db c ops
        | .ok (ttlU, ttlCh) =>
          match descStep ex body.description with
          | .error c => errResult db c ops
          | .ok (dscU, dscCh) =>
            match datesStep isSub ex body.startDate body.endDate with
            | .error c => errResult db c ops
            | .ok (sU, eU, tlCh) =>
              let u : Updates :=
                { imageUrlU := imgU, titleU := ttlU, descriptionU := dscU,
                  startDateU := sU, endDateU := eU }
              if u.isEmpty then errResult db 400 ops
              else
                let fields := changedFieldsList imgCh ttlCh dscCh
                let nextS := match sU with | some v => v | none => ex.startDate
                let nextE := match eU with | some v => v | none => ex.endDate
                let newEvents :=
                  (if 0 < fields.length then
                    [mkEvent id .UPDATED (updatedMessage fields) uid] else []) ++
                  (if tlCh then
                    [mkEvent id .TIMELINE_UPDATED (timelineMessage nextS nextE) uid] else [])
                let db3 : DB :=
                  { todos := updateRow db.todos id u, events := db.events ++ newEvents }
                let found := db3.todos.any (fun t => t.id == id)
                { db := db3, code := 200, success := true,
                  dataIds := if found then [id] else [],
                  broadcasts := if found then [⟨uid, "update", [id], []⟩] else [],
                  storage := ops }

/-! ## createTodo -/

structure CreateBody where
  title : Option JsVal
  description : Option JsVal
  parentId : Option JsVal
  statusVal : Option JsVal
  startDate : Option JsVal
  endDate : Option JsVal
deriving DecidableEq, Repr

/-- Serial primary key assignment. -/
def freshId (todos : List Todo) : Nat := todos.foldl (fun acc t => Nat.max acc t.id) 0 + 1

def parseNullableDateField : Option JsVal → Except Nat (Option Int)
  | none => .ok none
  | some v => parseNullableDate v

/-- The write phase of createTodo (after all validation): optional upload,
row insertion, CREATED event, SUBTODO_ADDED event on the parent, broadcast. -/
def finishCreate (db : DB) (uid : Nat) (rawTitle : String) (descField : Option JsVal)
    (parent : Option Todo) (sd ed : Option Int) (st : Option Status) (file : Option String) :
    OpResult :=
  let desc : Option String :=
    match descField with
    | some (.str s) => if jsTrim s == "" then none else some (jsTrim s)
    | _ => none
  let uploaded :=
    match file with
    | some name => ([StorageOp.upload name], some ("uploads/" ++ name))
    | none => (([] : List StorageOp), (none : Option String))
  let nid := freshId db.todos
  let row : Todo :=
    { id := nid, title := jsTrim rawTitle, description := desc, imageUrl := uploaded.2,
      startDate := sd, endDate := ed,
      status := match st with | some v => v | none => .TODO,
      parentId := parent.map (fun p => p.id), userId := uid }
  let createdMsg :=
    match parent with
    | some p => "Subtodo created under \"" ++ p.title ++ "\""
    | none => "Todo created"
  let newEvents :=
    [mkEvent nid .CREATED createdMsg uid] ++
      (match parent with
       | some p =>
         [mkEvent p.id .SUBTODO_ADDED ("Subtodo \"" ++ jsTrim rawTitle ++ "\" added") uid]
       | none => [])
  let db3 : DB := { todos := db.todos ++ [row], events := db.events ++ newEvents }
  { db := db3, code := 201, success := true, dataIds := [nid],
    broadcasts := [⟨uid, "create", [nid], []⟩], storage := uploaded.1 }

/-- Translation of createTodo.  All validation (title, parent resolution,
dates for parentless tasks, status token) precedes the upload and insert. -/
def createTodo (db : DB) (uid : Nat) (body : CreateBody) (file : Option String) : OpResult :=
  match body.title with
  | some (.str s) =>
    if s == "" then errResult db 400 []
    else
      let parentField : Option JsVal :=
        match body.parentId with
        | none => none
        | some .null => none
        | some (.str "") => none
        | some v => some v
      match parentField with
      | some pv =>
        match parseTodoIdVal pv with
        | .error c => errResult db c []
        | .ok pid =>
          match findTodo db.todos pid uid with
          | none => errResult db 404 []
          | some parent =>
            match parseStatusOpt body.statusVal with
            | .error c => errResult db c []
            | .ok st => finishCreate db uid s body.description (some parent) none none st file
      | none =>
        match parseNullableDateField body.startDate with
        | .error c => errResult db c []
        | .ok sd =>
          match parseNullableDateField body.endDate with
          | .error c => errResult db c []
          | .ok ed =>
            match assertValidTimeline sd ed with
            | .error c => errResult db c []
            | .ok _ =>
              match parseStatusOpt body.statusVal with
              | .error c => errResult db c []
              | .ok st => finishCreate db uid s body.description none sd ed st file
  | _ => errResult db 400 []

/-! ## updateParentTimelines (src/src/utils/supabase.js; dead code: no
controller invokes it) -/

def setWindow (todos : List Todo) (id : Nat) (s e : Option Int) : List Todo :=
  todos.map (fun t => if t.id = id then { t with startDate := s, endDate := e } else t)

/-- Translation of updateParentTimelines.  `fuel` bounds the recursion depth
(the JS recursion is bounded by the ancestor chain); the walk recomputes the
parent's window from all direct children (findUnique/subtodos carry no owner
filter) and recurses unconditionally while a parent reference exists.  It
appends no audit events. -/
def updateParentTimelines (db : DB) : Nat → Option Nat → DB
  | _, none => db
  | fuel, some pid =>
    if pid = 0 then db
    else
      match db.todos.find? (fun t => t.id == pid) with
      | none => db
      | some parent =>
        let subs := db.todos.filter (fun t => t.parentId == some parent.id)
        let w := computeTimelineFromSubtodos subs
        let db2 : DB := { db with todos := setWindow db.todos parent.id w.1 w.2 }
        match fuel with
        | 0 => db2
        | fuel2 + 1 => updateParentTimelines db2 fuel2 parent.parentId

/-! ## Change notification bus (SSE delivery) -/

/-- One registered SSE subscriber: its identity, owner, sink state, and the
sequence of event payloads successfully written to its sink. -/
structure SseClient where
  clientId : Nat
  userId : Nat
  writableEnded : Bool
  writeFails : Bool
  sent : List String
deriving DecidableEq, Repr

/-- Per-client step of the todoEvents "change" handler: an owner that does
not match is skipped (and stays registered); a subscriber whose sink has
ended or whose write throws is pruned (returns none) with nothing written; a
healthy matching subscriber gets the serialized event appended. -/
def deliverClient (evUserId : Nat) (payload : String) (c : SseClient) : Option SseClient :=
  if c.userId != evUserId then some c
  else if c.writableEnded then none
  else if c.writeFails then none
  else some { c with sent := c.sent ++ [payload] }

/-- Translation of the todoEvents "change" handler over the registry. -/
def deliverEvent (clients : List SseClient) (evUserId : Nat) (payload : String) :
    List SseClient :=
  clients.filterMap (deliverClient evUserId payload)

/-- Identity-relevant projection of a row (primary key and owner). -/
def idUser (t : Todo) : Nat × Nat := (t.id, t.userId)

/-- Specification view for the batch parser: the parsed (id, status) pairs
in input order, without deduplication. -/
def parseEntries : List (Option Int × Option JsVal) → Except Nat (List (Nat × Status))
  | [] => .ok []
  | (idv, sv) :: rest =>
    match parseTodoId idv with
    | .error c => .error c
    | .ok k =>
      match parseStatusRequired sv with
      | .error c => .error c
      | .ok s => (parseEntries rest).map (fun l => (k, s) :: l)

/-! ## Concrete states used by counterexamples and witnesses -/

/-- A task whose parent reference (5) does not resolve within its set. -/
def danglingTodo : Todo :=
  { id := 2, title := "b", description := none, imageUrl := none, startDate := none,
    endDate := none, status := .TODO, parentId := some 5, userId := 1 }

/-- Root 1 with child 2, owner 7. -/
def rootW : Todo :=
  { id := 1, title := "a", description := none, imageUrl := none, startDate := none,
    endDate := none, status := .TODO, parentId := none, userId := 7 }

def childW : Todo :=
  { id := 2, title := "b", description := none, imageUrl := none, startDate := none,
    endDate := none, status := .TODO, parentId := some 1, userId := 7 }

def forestW : List Todo := [rootW, childW]

/-- A DB with a single TODO task, owner 7. -/
def noopDb : DB := { todos := [rootW], events := [] }

/-- Registry with a live subscriber of owner 3 and a stale one of owner 4. -/
def clientsW : List SseClient :=
  [ { clientId := 1, userId := 3, writableEnded := false, writeFails := false, sent := [] },
    { clientId := 2, userId := 4, writableEnded := true, writeFails := false, sent := [] } ]

/-- Batch input referencing existing task 1 and nonexistent task 99. -/
def badBatchInput : List (Option Int × Option JsVal) :=
  [(some 1, some (JsVal.str "DONE")), (some 99, some (JsVal.str "DONE"))]

/-- Batch input mentioning task 1 twice; the last status must win. -/
def batchDupInput : List (Option Int × Option JsVal) :=
  [(some 1, some (JsVal.str "DONE")), (some 1, some (JsVal.str "IN_PROGRESS"))]

/-- The committed state after running batchDupInput against noopDb. -/
def batchDupDb2 : DB :=
  { todos := [{ rootW with status := Status.IN_PROGRESS }],
    events := [mkEvent 1 .STATUS_CHANGED "Status changed from TODO to IN_PROGRESS" 7] }

/-- A parent already DONE whose child is still TODO (owner 7). -/
def doneParent : Todo :=
  { id := 1, title := "p", description := none, imageUrl := none, startDate := none,
    endDate := none, status := .DONE, parentId := none, userId := 7 }

def todoChild : Todo :=
  { id := 2, title := "c", description := none, imageUrl := none, startDate := none,
    endDate := none, status := .TODO, parentId := some 1, userId := 7 }

def doneDb : DB := { todos := [doneParent, todoChild], events := [] }

/-- A three-level chain 1 ← 2 ← 3, all TODO, owner 7. -/
def chainA : Todo :=
  { id := 1, title := "a", description := none, imageUrl := none, startDate := none,
    endDate := none, status := .TODO, parentId := none, userId := 7 }

def chainB : Todo :=
  { id := 2, title := "b", description := none, imageUrl := none, startDate := none,
    endDate := none, status := .TODO, parentId := some 1, userId := 7 }

def chainC : Todo :=
  { id := 3, title := "c", description := none, imageUrl := none, startDate := none,
    endDate := none, status := .TODO, parentId := some 2, userId := 7 }

def chainDb : DB := { todos := [chainA, chainB, chainC], events := [] }

/-- Parent 10 with dated leaf child 11 (owner 7): editing the child's dates
changes the parent's derived window. -/
def tlParent : Todo :=
  { id := 10, title := "P", description := none, imageUrl := none,
    startDate := some 1, endDate := some 6, status := .TODO, parentId := none, userId := 7 }

def tlChild : Todo :=
  { id := 11, title := "C", description := none, imageUrl := none,
    startDate := some 5, endDate := some 6, status := .TODO, parentId := some 10,
    userId := 7 }

def tlDb : DB := { todos := [tlParent, tlChild], events := [] }

/-- Body supplying a new start date for the leaf. -/
def tlBody : UpdateBody :=
  { title := none, description := none, startDate := some (JsVal.num 7),
    endDate := none, imageUrl := none }

/-- Root 1 (with child 2) whose dates are edited directly. -/
def cx5Root : Todo :=
  { id := 1, title := "r", description := none, imageUrl := none, startDate := none,
    endDate := none, status := .TODO, parentId := none, userId := 7 }

def cx5Child : Todo :=
  { id := 2, title := "c", description := none, imageUrl := none, startDate := none,
    endDate := none, status := .TODO, parentId := some 1, userId := 7 }

def cx5Db : DB := { todos := [cx5Root, cx5Child], events := [] }

def cx5Body : UpdateBody :=
  { title := none, description := none, startDate := some (JsVal.num 5),
    endDate := none, imageUrl := none }

/-- A task with a stored image (owner 7). -/
def img9 : Todo :=
  { id := 1, title := "t", description := none, imageUrl := some "old.png",
    startDate := none, endDate := none, status := .TODO, parentId := none, userId := 7 }

def img9Db : DB := { todos := [img9], events := [] }

/-- Body removing the image and supplying a whitespace-only (invalid) title. -/
def img9Body : UpdateBody :=
  { title := some (JsVal.str " "), description := none, startDate := none,
    endDate := none, imageUrl := some JsVal.null }

/-! # Theorems -/

lemma foldl_min_mem (xs : List Int) (a : Int) : xs.foldl min a ∈ a :: xs := by
  induction xs generalizing a with
  | nil => simp
  | cons b t ih =>
    simp only [List.foldl_cons]
    have h := ih (min a b)
    rw [List.mem_cons] at h
    rcases h with h | h
    · rw [h]
      rcases min_choice a b with h2 | h2 <;> rw [h2] <;> simp
    · simp [h]

lemma foldl_min_le (xs : List Int) (a : Int) :
    ∀ x ∈ a :: xs, xs.foldl min a ≤ x := by
  induction xs generalizing a with
  | nil => intro x hx; simp at hx; simp [hx]
  | cons b t ih =>
    intro x hx
    simp only [List.foldl_cons]
    rw [List.mem_cons, List.mem_cons] at hx
    rcases hx with h | h | h
    · calc t.foldl min (min a b) ≤ min a b := ih (min a b) (min a b) (by simp)
        _ ≤ a := min_le_left a b
        _ = x := h.symm
    · calc t.foldl min (min a b) ≤ min a b := ih (min a b) (min a b) (by simp)
        _ ≤ b := min_le_right a b
        _ = x := h.symm
    · exact ih (min a b) x (by simp [h])

lemma foldl_max_mem (xs : List Int) (a : Int) : xs.foldl max a ∈ a :: xs := by
  induction xs generalizing a with
  | nil => simp
  | cons b t ih =>
    simp only [List.foldl_cons]
    have h := ih (max a b)
    rw [List.mem_cons] at h
    rcases h with h | h
    · rw [h]
      rcases max_choice a b with h2 | h2 <;> rw [h2] <;> simp
    · simp [h]

lemma foldl_max_ge (xs : List Int) (a : Int) :
    ∀ x ∈ a :: xs, x ≤ xs.foldl max a := by
  induction xs generalizing a with
  | nil => intro x hx; simp at hx; simp [hx]
  | cons b t ih =>
    intro x hx
    simp only [List.foldl_cons]
    rw [List.mem_cons, List.mem_cons] at hx
    rcases hx with h | h | h
    · calc x = a := h
        _ ≤ max a b := le_max_left a b
        _ ≤ t.foldl max (max a b) := ih (max a b) (max a b) (by simp)
    · calc x = b := h
        _ ≤ max a b := le_max_right a b
        _ ≤ t.foldl max (max a b) := ih (max a b) (max a b) (by simp)
    · exact ih (max a b) x (by simp [h])

/-- C1: the rollup calculator returns, independently in each component, the
minimum of the non-null child start dates and the maximum of the non-null
child end dates, each bound being `none` exactly when no child supplies a
value for it; the empty child list yields `(none, none)`. -/
theorem computeTimelineFromSubtodos_spec (subtodos : List Todo) :
    (computeTimelineFromSubtodos [] = (none, none)) ∧
    ((computeTimelineFromSubtodos subtodos).1 = none ↔
      subtodos.filterMap (fun t => t.startDate) = []) ∧
    ((computeTimelineFromSubtodos subtodos).2 = none ↔
      subtodos.filterMap (fun t => t.endDate) = []) ∧
    (∀ m, (computeTimelineFromSubtodos subtodos).1 = some m →
      m ∈ subtodos.filterMap (fun t => t.startDate) ∧
      ∀ d ∈ subtodos.filterMap (fun t => t.startDate), m ≤ d) ∧
    (∀ m, (computeTimelineFromSubtodos subtodos).2 = some m →
      m ∈ subtodos.filterMap (fun t => t.endDate) ∧
      ∀ d ∈ subtodos.filterMap (fun t => t.endDate), d ≤ m) := by
  refine ⟨rfl, ?_, ?_, ?_, ?_⟩
  · unfold computeTimelineFromSubtodos
    split
    · rename_i h
      rw [List.length_eq_zero] at h
      subst h; simp
    · rename_i h
      cases hs : subtodos.filterMap (fun t => t.startDate) with
      | nil => simp [hs]
      | cons d ds => simp [hs]
  · unfold computeTimelineFromSubtodos
    split
    · rename_i h
      rw [List.length_eq_zero] at h
      subst h; simp
    · rename_i h
      cases hs : subtodos.filterMap (fun t => t.endDate) with
      | nil => simp [hs]
      | cons d ds => simp [hs]
  · intro m hm
    unfold computeTimelineFromSubtodos at hm
    split at hm
    · simp at hm
    · cases hs : subtodos.filterMap (fun t => t.startDate) with
      | nil => simp [hs] at hm
      | cons d ds =>
        simp only [hs] at hm
        have : m = ds.foldl min d := by
          simpa using hm.symm
        subst this
        exact ⟨foldl_min_mem ds d, foldl_min_le ds d⟩
  · intro m hm
    unfold computeTimelineFromSubtodos at hm
    split at hm
    · simp at hm
    · cases hs : subtodos.filterMap (fun t => t.endDate) with
      | nil => simp [hs] at hm
      | cons d ds =>
        simp only [hs] at hm
        have : m = ds.foldl max d := by
          simpa using hm.symm
        subst this
        exact ⟨foldl_max_mem ds d, foldl_max_ge ds d⟩

/-! ### Hierarchy traversal: buildTodoTree -/

lemma buildTree_go (ids : List Nat) (l : List Todo) (acc : List Nat × List (Nat × Nat)) :
    l.foldl
      (fun acc t =>
        if jsTruthyId t.parentId then
          match t.parentId with
          | some p => if p ∈ ids then (acc.1, acc.2 ++ [(p, t.id)]) else acc
          | none => acc
        else (acc.1 ++ [t.id], acc.2)) acc
    = (acc.1 ++ l.filterMap rootEntry, acc.2 ++ l.filterMap (edgeEntry ids)) := by
  induction l generalizing acc with
  | nil => simp
  | cons t rest ih =>
    simp only [List.foldl_cons]
    rw [ih]
    cases hp : t.parentId with
    | none => simp [rootEntry, edgeEntry, jsTruthyId, hp]
    | some p =>
      by_cases h0 : p = 0
      · subst h0
        simp [rootEntry, edgeEntry, jsTruthyId, hp]
      · by_cases hmem : p ∈ ids
        · simp [rootEntry, edgeEntry, jsTruthyId, hp, h0, hmem]
        · simp [rootEntry, edgeEntry, jsTruthyId, hp, h0, hmem]

lemma buildTodoTree_eq (todos : List Todo) :
    buildTodoTree todos =
      (todos.filterMap rootEntry,
       todos.filterMap (edgeEntry (todos.map (fun t => t.id)))) := by
  unfold buildTodoTree
  rw [buildTree_go]
  simp

lemma eq_of_mem_of_id_eq {l : List Todo} (hnd : (l.map (fun t => t.id)).Nodup)
    {a b : Todo} (ha : a ∈ l) (hb : b ∈ l) (h : a.id = b.id) : a = b := by
  exact List.inj_on_of_nodup_map hnd ha hb h

lemma countP_filterMap_key {α : Type} (f : Todo → Option α) (key : α → Nat)
    (hkey : ∀ u a, f u = some a → key a = u.id)
    (l : List Todo) (hnd : (l.map (fun t => t.id)).Nodup)
    (t : Todo) (ht : t ∈ l) :
    (l.filterMap f).countP (fun a => key a == t.id) =
      (match f t with | some _ => 1 | none => 0) := by
  induction l with
  | nil => cases ht
  | cons u rest ih =>
    simp only [List.map_cons, List.nodup_cons, List.mem_map] at hnd
    rcases List.mem_cons.mp ht with rfl | htr
    · rw [List.filterMap_cons]
      have hrest : (rest.filterMap f).countP (fun a => key a == t.id) = 0 := by
        rw [List.countP_eq_zero]
        intro a ha
        rcases List.mem_filterMap.mp ha with ⟨u2, hu2, hfa⟩
        have : key a = u2.id := hkey u2 a hfa
        simp only [this, beq_iff_eq]
        intro hcontra
        exact hnd.1 ⟨u2, hu2, hcontra⟩
      cases hf : f t with
      | none => simpa [hf] using hrest
      | some a =>
        have : key a = t.id := hkey t a hf
        simp [hf, List.countP_cons, this, hrest]
    · have hid : u.id ≠ t.id := by
        intro hcontra
        exact hnd.1 ⟨t, htr, hcontra.symm⟩
      rw [List.filterMap_cons]
      cases hf : f u with
      | none => exact ih hnd.2 htr
      | some a =>
        have hka : key a = u.id := hkey u a hf
        simp only [List.countP_cons, hka, beq_iff_eq]
        rw [if_neg hid]
        simpa using ih hnd.2 htr

/-- C7 (amended): with unique primary keys, a task whose parent reference
is falsy (absent or 0) is placed as a root; a task whose truthy parent
reference resolves inside the set is attached (once) under that parent; but
a task whose truthy parent reference does not resolve is omitted from the
forest entirely — it is neither a root nor attached anywhere.  Each task is
placed exactly once, except dangling-parent tasks, placed zero times. -/
theorem buildTodoTree_placement (todos : List Todo) (hnd : UniqueIds todos)
    (t : Todo) (ht : t ∈ todos) :
    (jsTruthyId t.parentId = false → t.id ∈ (buildTodoTree todos).1) ∧
    (∀ p, t.parentId = some p → p ≠ 0 → p ∈ todos.map (fun u => u.id) →
      (p, t.id) ∈ (buildTodoTree todos).2) ∧
    (∀ p, t.parentId = some p → p ≠ 0 → p ∉ todos.map (fun u => u.id) →
      t.id ∉ (buildTodoTree todos).1 ∧ ∀ q, (q, t.id) ∉ (buildTodoTree todos).2) ∧
    ((buildTodoTree todos).1.countP (fun x => x == t.id) +
      (buildTodoTree todos).2.countP (fun e => e.2 == t.id) =
      (match t.parentId with
       | some p =>
         if p = 0 then 1 else (if p ∈ todos.map (fun u => u.id) then 1 else 0)
       | none => 1)) := by
  rw [buildTodoTree_eq]
  refine ⟨?_, ?_, ?_, ?_⟩
  · intro hfalsy
    refine List.mem_filterMap.mpr ⟨t, ht, ?_⟩
    simp [rootEntry, hfalsy]
  · intro p hp h0 hmem
    refine List.mem_filterMap.mpr ⟨t, ht, ?_⟩
    simp [edgeEntry, jsTruthyId, hp, h0, hmem]
  · intro p hp h0 hmem
    constructor
    · intro hcontra
      rcases List.mem_filterMap.mp hcontra with ⟨u, hu, hru⟩
      have huid : u.id = t.id := by
        unfold rootEntry at hru
        split at hru
        · cases hru
        · exact (Option.some.injEq _ _).mp hru
      have := eq_of_mem_of_id_eq hnd hu ht huid
      subst this
      unfold rootEntry at hru
      rw [if_pos (by simp [jsTruthyId, hp, h0])] at hru
      cases hru
    · intro q hcontra
      rcases List.mem_filterMap.mp hcontra with ⟨u, hu, hru⟩
      have huid : u.id = t.id := by
        unfold edgeEntry at hru
        split at hru
        · split at hru
          · split at hru
            · have := (Option.some.injEq _ _).mp hru
              exact congrArg Prod.snd this
            · cases hru
          · cases hru
        · cases hru
      have := eq_of_mem_of_id_eq hnd hu ht huid
      subst this
      unfold edgeEntry at hru
      rw [if_pos (by simp [jsTruthyId, hp, h0])] at hru
      simp only [hp] at hru
      rw [if_neg hmem] at hru
      cases hru
  · have hroot := countP_filterMap_key rootEntry id (fun u a h => by
      unfold rootEntry at h
      split at h
      · cases h
      · simpa using ((Option.some.injEq _ _).mp h).symm) todos hnd t ht
    have hedge := countP_filterMap_key (edgeEntry (todos.map (fun u => u.id))) Prod.snd
      (fun u a h => by
        unfold edgeEntry at h
        split at h
        · split at h
          · split at h
            · have := (Option.some.injEq _ _).mp h
              exact (congrArg Prod.snd this).symm ▸ rfl
            · cases h
          · cases h
        · cases h) todos hnd t ht
    simp only [id] at hroot
    rw [hroot, hedge]
    unfold rootEntry edgeEntry
    cases hp : t.parentId with
    | none => simp [jsTruthyId]
    | some p =>
      by_cases h0 : p = 0
      · subst h0
        simp [jsTruthyId]
      · by_cases hmem : p ∈ todos.map (fun u => u.id)
        · simp [jsTruthyId, h0, hmem]
        · simp [jsTruthyId, h0, hmem]

/-- C7 counterexample: a task whose truthy parent reference does not resolve
within the set is NOT placed as a root (the claim says it must be): the
builder leaves both the root list and the attachment list empty, so the task
does not appear in the forest at all. -/
theorem buildTodoTree_dangling_not_root :
    danglingTodo.parentId = some 5 ∧
    List.map (fun t => t.id) [danglingTodo] = [2] ∧
    (buildTodoTree [danglingTodo]).1 = [] ∧
    (buildTodoTree [danglingTodo]).2 = [] := by
  refine ⟨rfl, rfl, ?_, ?_⟩ <;> rfl

/-- Witness for buildTodoTree_placement at a concrete two-node forest. -/
theorem buildTodoTree_placement_witness :
    (UniqueIds forestW ∧ childW ∈ forestW) ∧
    (∀ p, childW.parentId = some p → p ≠ 0 → p ∈ forestW.map (fun u => u.id) →
      (p, childW.id) ∈ (buildTodoTree forestW).2) :=
  ⟨⟨by decide, by decide⟩,
   (buildTodoTree_placement forestW (by decide) childW (by decide)).2.1⟩

/-! ### Status cascade engine: the same-status no-op (C6) -/

lemma any_id_of_findTodo {todos : List Todo} {id uid : Nat} {ex : Todo}
    (h : findTodo todos id uid = some ex) :
    todos.any (fun t => t.id == id) = true := by
  unfold findTodo at h
  have hmem := List.mem_of_find?_eq_some h
  have hpred := List.find?_some h
  simp only [Bool.and_eq_true, beq_iff_eq] at hpred
  exact List.any_eq_true.mpr ⟨ex, hmem, by simp [hpred.1]⟩

/-- C6: when the requested status equals the task's current status the call
is a no-op: the database (rows and audit log) is returned unchanged, no
broadcast is emitted, no storage traffic occurs, and the call still succeeds
with HTTP 200 returning the task's current tree node. -/
theorem updateTodoStatus_noop (db : DB) (uid : Nat) (idVal : Option Int)
    (statusVal : Option JsVal) (id : Nat) (st : Status) (ex : Todo)
    (hid : parseTodoId idVal = .ok id)
    (hst : parseStatusRequired statusVal = .ok st)
    (hfind : findTodo db.todos id uid = some ex)
    (heq : ex.status = st) :
    updateTodoStatus db uid idVal statusVal =
      { db := db, code := 200, success := true, dataIds := [id],
        broadcasts := [], storage := [] } := by
  unfold updateTodoStatus
  simp only [hid, hst, hfind]
  rw [if_pos heq, any_id_of_findTodo hfind]
  simp

/-- Witness for updateTodoStatus_noop on a concrete one-task database. -/
theorem updateTodoStatus_noop_witness :
    (parseTodoId (some 1) = Except.ok 1 ∧
     parseStatusRequired (some (JsVal.str "TODO")) = Except.ok Status.TODO ∧
     findTodo noopDb.todos 1 7 = some rootW ∧
     rootW.status = Status.TODO) ∧
    updateTodoStatus noopDb 7 (some 1) (some (JsVal.str "TODO")) =
      { db := noopDb, code := 200, success := true, dataIds := [1],
        broadcasts := [], storage := [] } :=
  ⟨⟨rfl, rfl, rfl, rfl⟩,
   updateTodoStatus_noop noopDb 7 (some 1) (some (JsVal.str "TODO")) 1 .TODO rootW
     rfl rfl rfl rfl⟩

/-! ### Change notification bus (C10) -/

lemma deliverClient_other {evU : Nat} {payload : String} {c : SseClient}
    (hu : c.userId ≠ evU) : deliverClient evU payload c = some c := by
  unfold deliverClient
  rw [if_pos (by simp [hu])]

lemma deliverClient_live {evU : Nat} {payload : String} {c : SseClient}
    (hu : c.userId = evU) (he : c.writableEnded = false) (hw : c.writeFails = false) :
    deliverClient evU payload c = some { c with sent := c.sent ++ [payload] } := by
  unfold deliverClient
  rw [if_neg (by simp [hu]), if_neg (by simp [he]), if_neg (by simp [hw])]

lemma deliverClient_cases {evU : Nat} {payload : String} {c c2 : SseClient}
    (h : deliverClient evU payload c = some c2) :
    (c.userId ≠ evU ∧ c2 = c) ∨
      (c.userId = evU ∧ c.writableEnded = false ∧ c.writeFails = false ∧
       c2 = { c with sent := c.sent ++ [payload] }) := by
  unfold deliverClient at h
  by_cases hu : c.userId = evU
  · rw [if_neg (by simp [hu])] at h
    by_cases he : c.writableEnded
    · rw [if_pos he] at h; cases h
    · rw [if_neg he] at h
      by_cases hw : c.writeFails
      · rw [if_pos hw] at h; cases h
      · rw [if_neg hw] at h
        exact Or.inr ⟨hu, by simp [he], by simp [hw],
          ((Option.some.injEq _ _).mp h).symm⟩
  · rw [if_pos (by simp [hu])] at h
    exact Or.inl ⟨hu, ((Option.some.injEq _ _).mp h).symm⟩

lemma deliverClient_clientId {evU : Nat} {payload : String} {c c2 : SseClient}
    (h : deliverClient evU payload c = some c2) : c2.clientId = c.clientId := by
  rcases deliverClient_cases h with ⟨_, rfl⟩ | ⟨_, _, _, rfl⟩ <;> rfl

lemma deliverClient_userId {evU : Nat} {payload : String} {c c2 : SseClient}
    (h : deliverClient evU payload c = some c2) : c2.userId = c.userId := by
  rcases deliverClient_cases h with ⟨_, rfl⟩ | ⟨_, _, _, rfl⟩ <;> rfl

lemma clientId_inj {l : List SseClient} (hnd : (l.map (fun c => c.clientId)).Nodup)
    {a b : SseClient} (ha : a ∈ l) (hb : b ∈ l) (h : a.clientId = b.clientId) : a = b :=
  List.inj_on_of_nodup_map hnd ha hb h

lemma deliverEvent_filter_other (clients : List SseClient) (evU b : Nat) (payload : String)
    (hb : b ≠ evU) :
    (deliverEvent clients evU payload).filter (fun c => c.userId == b) =
      clients.filter (fun c => c.userId == b) := by
  induction clients with
  | nil => rfl
  | cons c rest ih =>
    unfold deliverEvent at ih ⊢
    simp only [List.filterMap_cons]
    by_cases hu : c.userId = evU
    · have hcb : (c.userId == b) = false := by
        simp only [beq_eq_false_iff_ne, ne_eq]
        intro h2
        exact hb (by rw [← h2, hu])
      cases hdc : deliverClient evU payload c with
      | none =>
        rw [List.filter_cons, hcb]
        simp only [Bool.false_eq_true, if_false]
        exact ih
      | some c2 =>
        have huid : c2.userId = c.userId := deliverClient_userId hdc
        rw [List.filter_cons, List.filter_cons]
        have hcb2 : (c2.userId == b) = false := by rw [huid]; exact hcb
        rw [hcb, hcb2]
        simp only [Bool.false_eq_true, if_false]
        exact ih
    · rw [deliverClient_other hu]
      rw [List.filter_cons, List.filter_cons]
      cases hcb : (c.userId == b) with
      | true =>
        simp only [if_pos rfl]
        rw [ih]
      | false =>
        simp only [Bool.false_eq_true, if_false]
        exact ih

set_option maxHeartbeats 1600000 in
/-- C10: delivery is owner-scoped and prunes stale sinks.  (1) For any other
owner b, the registered subscribers of b — including their written-event
sequences — are exactly unchanged by delivering an event of owner evU, so b's
feed is unaffected by evU's mutations; (2) a live matching subscriber gets
exactly the event appended to its sink; (3) a matching subscriber whose sink
has ended or whose write throws is pruned from the registry at delivery
time (the event is dropped for it); (4) every change event emitted by the
single, batch, update and create operations carries the acting owner's id. -/
theorem deliverEvent_owner_scoped (clients : List SseClient) (evU : Nat) (payload : String)
    (hnd : (clients.map (fun c => c.clientId)).Nodup) :
    (∀ b, b ≠ evU →
      (deliverEvent clients evU payload).filter (fun c => c.userId == b) =
        clients.filter (fun c => c.userId == b)) ∧
    (∀ c ∈ clients, c.userId = evU → c.writableEnded = false → c.writeFails = false →
      { c with sent := c.sent ++ [payload] } ∈ deliverEvent clients evU payload) ∧
    (∀ c ∈ clients, c.userId = evU → (c.writableEnded = true ∨ c.writeFails = true) →
      ∀ c2 ∈ deliverEvent clients evU payload, c2.clientId ≠ c.clientId) ∧
    (∀ (db : DB) (uid : Nat) (idVal : Option Int) (sv : Option JsVal)
        (input : List (Option Int × Option JsVal)) (body : UpdateBody)
        (cbody : CreateBody) (file : Option String),
      (∀ bc ∈ (updateTodoStatus db uid idVal sv).broadcasts, bc.userId = uid) ∧
      (∀ bc ∈ (updateTodoStatusesBatch db uid input).broadcasts, bc.userId = uid) ∧
      (∀ bc ∈ (updateTodo db uid idVal body file).broadcasts, bc.userId = uid) ∧
      (∀ bc ∈ (createTodo db uid cbody file).broadcasts, bc.userId = uid)) := by
  refine ⟨?_, ?_, ?_, ?_⟩
  · intro b hb
    exact deliverEvent_filter_other clients evU b payload hb
  · intro c hc hu he hw
    unfold deliverEvent
    exact List.mem_filterMap.mpr ⟨c, hc, deliverClient_live hu he hw⟩
  · intro c hc hu hstale c2 hc2 hcid
    unfold deliverEvent at hc2
    rcases List.mem_filterMap.mp hc2 with ⟨c3, hc3, hdc⟩
    have hcid3 : c2.clientId = c3.clientId := deliverClient_clientId hdc
    have : c3 = c := clientId_inj hnd hc3 hc (by rw [← hcid3, hcid])
    subst this
    rcases deliverClient_cases hdc with ⟨hne, _⟩ | ⟨_, hend, hfl, _⟩
    · exact hne hu
    · rcases hstale with h | h
      · rw [hend] at h; cases h
      · rw [hfl] at h; cases h
  · intro db uid idVal sv input body cbody file
    refine ⟨?_, ?_, ?_, ?_⟩
    · intro bc hbc
      unfold updateTodoStatus at hbc
      (repeat' split at hbc) <;> simp_all [errResult]
    · intro bc hbc
      unfold updateTodoStatusesBatch at hbc
      (repeat' split at hbc) <;> simp_all [errResult]
    · intro bc hbc
      unfold updateTodo at hbc
      (repeat' split at hbc) <;> (try simp_all [errResult]) <;>
        (repeat' split at hbc) <;> simp_all [errResult]
    · intro bc hbc
      unfold createTodo finishCreate at hbc
      (repeat' split at hbc) <;> (try simp_all [errResult]) <;>
        (repeat' split at hbc) <;> simp_all [errResult]

/-- Witness for deliverEvent_owner_scoped: owner 4's registry (with its sent
sequence) is unchanged by delivering owner 3's event. -/
theorem deliverEvent_owner_scoped_witness :
    (clientsW.map (fun c => c.clientId)).Nodup ∧
    ((4 : Nat) ≠ 3 →
      (deliverEvent clientsW 3 "e").filter (fun c => c.userId == 4) =
        clientsW.filter (fun c => c.userId == 4)) :=
  ⟨by decide, (deliverEvent_owner_scoped clientsW 3 "e" (by decide)).1 4⟩

/-! ### Batch atomicity (C4) -/

lemma map_idUser_setStatus (todos : List Todo) (id : Nat) (s : Status) :
    (setStatus todos id s).map idUser = todos.map idUser := by
  unfold setStatus
  rw [List.map_map]
  apply List.map_congr_left
  intro t _
  by_cases h : t.id = id <;> simp [h, idUser]

lemma map_idUser_setStatusMany (todos : List Todo) (ids : List Nat) (s : Status) :
    (setStatusMany todos ids s).map idUser = todos.map idUser := by
  unfold setStatusMany
  rw [List.map_map]
  apply List.map_congr_left
  intro t _
  by_cases h : t.id ∈ ids <;> simp [h, idUser]

lemma cascadeDone_events (db : DB) (k uid : Nat) :
    (cascadeDone db k uid).events = db.events := by
  unfold cascadeDone
  dsimp only
  split <;> rfl

lemma map_idUser_cascadeDone (db : DB) (k uid : Nat) :
    (cascadeDone db k uid).todos.map idUser = db.todos.map idUser := by
  unfold cascadeDone
  dsimp only
  split
  · exact map_idUser_setStatusMany _ _ _
  · rfl

lemma findTodo_some_mem {todos : List Todo} {k uid : Nat} {ex : Todo}
    (h : findTodo todos k uid = some ex) :
    ex ∈ todos ∧ ex.id = k ∧ ex.userId = uid := by
  unfold findTodo at h
  have hmem := List.mem_of_find?_eq_some h
  have hpred := List.find?_some h
  simp only [Bool.and_eq_true, beq_iff_eq] at hpred
  exact ⟨hmem, hpred.1, hpred.2⟩

lemma findTodo_some_idUser {todos : List Todo} {k uid : Nat} {ex : Todo}
    (h : findTodo todos k uid = some ex) : (k, uid) ∈ todos.map idUser := by
  rcases findTodo_some_mem h with ⟨hm, h1, h2⟩
  exact List.mem_map.mpr ⟨ex, hm, by simp [idUser, h1, h2]⟩

lemma batchTxGo_notFound (uid : Nat) (entries : List (Nat × Status)) :
    ∀ (db : DB) (processed : List Nat),
      (∃ e ∈ entries, (e.1, uid) ∉ db.todos.map idUser) →
      batchTxGo uid db entries processed = .error 404 := by
  induction entries with
  | nil =>
    intro db processed h
    rcases h with ⟨e, he, _⟩
    cases he
  | cons e rest ih =>
    intro db processed h
    obtain ⟨k, s⟩ := e
    unfold batchTxGo
    cases hf : findTodo db.todos k uid with
    | none => rfl
    | some ex =>
      dsimp only
      have hin : (k, uid) ∈ db.todos.map idUser := findTodo_some_idUser hf
      have hrest : ∃ e2 ∈ rest, (e2.1, uid) ∉ db.todos.map idUser := by
        rcases h with ⟨e2, he2, hnot⟩
        rcases List.mem_cons.mp he2 with heq | hmem
        · rw [heq] at hnot
          exact absurd hin hnot
        · exact ⟨e2, hmem, hnot⟩
      by_cases heq : ex.status = s
      · rw [if_pos heq]
        exact ih db processed hrest
      · rw [if_neg heq]
        apply ih
        rcases hrest with ⟨e2, he2, hnot⟩
        refine ⟨e2, he2, ?_⟩
        intro hcontra
        apply hnot
        have hpres :
            (if s = Status.DONE then
               cascadeDone
                 { todos := setStatus db.todos k s,
                   events := db.events ++
                     [mkEvent k .STATUS_CHANGED (statusChangedMessage ex.status s) uid] } k uid
             else
               { todos := setStatus db.todos k s,
                 events := db.events ++
                   [mkEvent k .STATUS_CHANGED (statusChangedMessage ex.status s) uid] }).todos.map
                idUser = db.todos.map idUser := by
          split
          · rw [map_idUser_cascadeDone]
            exact map_idUser_setStatus _ _ _
          · exact map_idUser_setStatus _ _ _
        rw [← hpres]
        exact hcontra

/-- C4: a batch status update in which at least one parsed id does not
resolve to a task owned by the caller fails as a whole with a not-found
classification: the returned database is the original one (no status write,
no cascade, no audit event committed), no broadcast fires and no storage
traffic happens — even if other ids are valid. -/
theorem updateTodoStatusesBatch_notFound_atomic (db : DB) (uid : Nat)
    (input : List (Option Int × Option JsVal)) (m : List (Nat × Status))
    (hparse : parseBatchUpdates input [] = .ok m)
    (hmissing : ∃ e ∈ m, ¬∃ t ∈ db.todos, t.id = e.1 ∧ t.userId = uid) :
    updateTodoStatusesBatch db uid input = errResult db 404 [] := by
  have hmiss2 : ∃ e ∈ m, (e.1, uid) ∉ db.todos.map idUser := by
    rcases hmissing with ⟨e, he, hnot⟩
    refine ⟨e, he, ?_⟩
    intro hcontra
    apply hnot
    rcases List.mem_map.mp hcontra with ⟨t, ht, heq⟩
    refine ⟨t, ht, ?_, ?_⟩
    · exact congrArg Prod.fst heq
    · exact congrArg Prod.snd heq
  have hm_ne : m ≠ [] := by
    rcases hmiss2 with ⟨e, he, _⟩
    intro hcontra
    rw [hcontra] at he
    cases he
  have hinput_ne : input.length ≠ 0 := by
    intro hlen
    rw [List.length_eq_zero] at hlen
    subst hlen
    unfold parseBatchUpdates at hparse
    have : m = [] := by
      have := hparse
      simp only [Except.ok.injEq] at this
      exact this.symm
    exact hm_ne this
  unfold updateTodoStatusesBatch
  rw [if_neg hinput_ne]
  simp only [hparse]
  rw [if_neg (by
    intro hlen
    rw [List.length_eq_zero] at hlen
    exact hm_ne hlen)]
  rw [batchTxGo_notFound uid m db [] hmiss2]

/-- Witness: batch [set 1 DONE, set 99 DONE] over a one-task DB owned by 7
(99 does not exist) commits nothing and fails with 404. -/
theorem updateTodoStatusesBatch_notFound_atomic_witness :
    (parseBatchUpdates badBatchInput [] =
      Except.ok [(1, Status.DONE), (99, Status.DONE)] ∧
     (∃ e ∈ [((1 : Nat), Status.DONE), (99, Status.DONE)],
       ¬∃ t ∈ noopDb.todos, t.id = e.1 ∧ t.userId = 7)) ∧
    updateTodoStatusesBatch noopDb 7 badBatchInput = errResult noopDb 404 [] :=
  ⟨⟨rfl, by decide⟩,
   updateTodoStatusesBatch_notFound_atomic noopDb 7 badBatchInput
     [(1, Status.DONE), (99, Status.DONE)] rfl (by decide)⟩

/-! ### Batch payload and deduplication (C8) -/

lemma parseBatchUpdates_eq (input : List (Option Int × Option JsVal)) :
    ∀ acc, parseBatchUpdates input acc =
      (parseEntries input).map
        (fun l => l.foldl (fun mm e => mapSet mm e.1 e.2) acc) := by
  induction input with
  | nil => intro acc; rfl
  | cons e rest ih =>
    intro acc
    obtain ⟨idv, sv⟩ := e
    unfold parseBatchUpdates parseEntries
    cases hid : parseTodoId idv with
    | error c => rfl
    | ok k =>
      dsimp only
      cases hst : parseStatusRequired sv with
      | error c => rfl
      | ok s =>
        dsimp only
        rw [ih]
        cases hrest : parseEntries rest with
        | error c => rfl
        | ok l => rfl

lemma lookup_map_replace (k0 : Nat) (v : Status) (k : Nat) (hk : k ≠ k0) :
    ∀ (m : List (Nat × Status)),
      (m.map (fun p => if p.1 == k0 then (k0, v) else p)).lookup k = m.lookup k := by
  intro m
  induction m with
  | nil => rfl
  | cons p rest ih =>
    simp only [List.map_cons]
    by_cases hp : p.1 = k0
    · rw [if_pos (by simp [hp])]
      rw [List.lookup_cons, List.lookup_cons]
      have h1 : (k == k0) = false := by simp [hk]
      have h2 : (k == p.1) = false := by simp [hp, hk]
      rw [h1, h2]
      simpa using ih
    · rw [if_neg (by simp [hp])]
      rw [List.lookup_cons, List.lookup_cons]
      cases hkp : (k == p.1) with
      | true => rfl
      | false => simpa using ih

lemma lookup_replace_hit (k0 : Nat) (v : Status) :
    ∀ (m : List (Nat × Status)), m.any (fun p => p.1 == k0) = true →
      (m.map (fun p => if p.1 == k0 then (k0, v) else p)).lookup k0 = some v := by
  intro m
  induction m with
  | nil => intro h; cases h
  | cons p rest ih =>
    intro hany
    simp only [List.map_cons]
    by_cases hp : p.1 = k0
    · rw [if_pos (by simp [hp])]
      rw [List.lookup_cons]
      simp
    · rw [if_neg (by simp [hp])]
      rw [List.lookup_cons]
      have h2 : (k0 == p.1) = false := by simp [Ne.symm hp]
      rw [h2]
      apply ih
      simp only [List.any_cons, Bool.or_eq_true] at hany
      rcases hany with h | h
      · exact absurd (by simpa using h) hp
      · exact h

lemma lookup_replace (k0 : Nat) (v : Status) (k : Nat) (m : List (Nat × Status))
    (hany : m.any (fun p => p.1 == k0) = true) :
    (m.map (fun p => if p.1 == k0 then (k0, v) else p)).lookup k =
      if k == k0 then some v else m.lookup k := by
  by_cases hk : k = k0
  · subst hk
    rw [if_pos (by simp)]
    exact lookup_replace_hit k v m hany
  · rw [if_neg (by simp [hk])]
    exact lookup_map_replace k0 v k hk m

lemma lookup_append_single (k0 : Nat) (v : Status) (k : Nat) :
    ∀ (m : List (Nat × Status)), m.any (fun p => p.1 == k0) = false →
      (m ++ [(k0, v)]).lookup k = if k == k0 then some v else m.lookup k := by
  intro m
  induction m with
  | nil =>
    intro _
    simp only [List.nil_append, List.lookup_cons]
    cases h : (k == k0) with
    | true => simp
    | false => simp [List.lookup]
  | cons p rest ih =>
    intro hany
    obtain ⟨pk, pv⟩ := p
    simp only [List.any_cons, Bool.or_eq_false_iff] at hany
    obtain ⟨hp, hrest⟩ := hany
    simp only [List.cons_append, List.lookup_cons]
    cases hkp : (k == pk) with
    | true =>
      have h3 : (k == k0) = false := by
        have h1 : k = pk := by simpa using hkp
        have h2 : pk ≠ k0 := by simpa using hp
        simp [h1, h2]
      rw [h3]
      simp
    | false =>
      rw [ih hrest]

lemma lookup_mapSet (m : List (Nat × Status)) (k0 : Nat) (v : Status) (k : Nat) :
    (mapSet m k0 v).lookup k = if k == k0 then some v else m.lookup k := by
  unfold mapSet
  cases hany : m.any (fun p => p.1 == k0) with
  | true =>
    simp only [if_pos]
    exact lookup_replace k0 v k m hany
  | false =>
    simp only [Bool.false_eq_true, if_false]
    exact lookup_append_single k0 v k m hany

lemma foldl_mapSet_lookup (l : List (Nat × Status)) :
    ∀ (acc : List (Nat × Status)) (k : Nat),
      (l.foldl (fun mm e => mapSet mm e.1 e.2) acc).lookup k =
        match l.reverse.find? (fun e => e.1 == k) with
        | some e => some e.2
        | none => acc.lookup k := by
  induction l with
  | nil => intro acc k; rfl
  | cons e rest ih =>
    intro acc k
    simp only [List.foldl_cons, List.reverse_cons, List.find?_append]
    rw [ih]
    cases hfind : rest.reverse.find? (fun e => e.1 == k) with
    | some e2 => simp [Option.or]
    | none =>
      simp only [Option.or, Option.none_or]
      obtain ⟨k1, s1⟩ := e
      simp only [List.find?]
      cases hk : (k1 == k) with
      | true =>
        have : k = k1 := by
          have := beq_iff_eq.mp hk
          exact this.symm
        rw [lookup_mapSet]
        simp [this]
      | false =>
        rw [lookup_mapSet]
        have : (k == k1) = false := by
          have h2 : k1 ≠ k := by simpa using hk
          simp [Ne.symm h2]
        rw [this]
        simp

lemma mapSet_keys_nodup {m : List (Nat × Status)} (k0 : Nat) (v : Status)
    (h : (m.map Prod.fst).Nodup) : ((mapSet m k0 v).map Prod.fst).Nodup := by
  unfold mapSet
  cases hany : m.any (fun p => p.1 == k0) with
  | true =>
    simp only [if_pos]
    have : (m.map (fun p => if p.1 == k0 then (k0, v) else p)).map Prod.fst =
        m.map Prod.fst := by
      rw [List.map_map]
      apply List.map_congr_left
      intro p _
      by_cases hp : p.1 = k0
      · simp [hp]
      · simp [hp]
    rw [this]
    exact h
  | false =>
    simp only [Bool.false_eq_true, if_false, List.map_append]
    rw [List.nodup_append]
    refine ⟨h, List.nodup_singleton _, ?_⟩
    intro a ha hb
    simp only [List.map_cons, List.map_nil, List.mem_singleton] at hb
    rcases List.mem_map.mp ha with ⟨p, hp, hpa⟩
    have hpk : (p.1 == k0) = true := by rw [hpa, hb]; simp
    have hcontra : m.any (fun q => q.1 == k0) = true :=
      List.any_eq_true.mpr ⟨p, hp, hpk⟩
    rw [hany] at hcontra
    cases hcontra

lemma foldl_mapSet_keys_nodup (l : List (Nat × Status)) :
    ∀ (acc : List (Nat × Status)), (acc.map Prod.fst).Nodup →
      ((l.foldl (fun mm e => mapSet mm e.1 e.2) acc).map Prod.fst).Nodup := by
  induction l with
  | nil => intro acc h; exact h
  | cons e rest ih =>
    intro acc h
    simp only [List.foldl_cons]
    exact ih _ (mapSet_keys_nodup e.1 e.2 h)

lemma batchTxGo_ok_spec (uid : Nat) :
    ∀ (entries : List (Nat × Status)) (db : DB) (processed : List Nat)
      (db2 : DB) (p2 : List Nat),
      (entries.map Prod.fst).Nodup →
      batchTxGo uid db entries processed = .ok (db2, p2) →
      ∃ delta newEvts,
        p2 = processed ++ delta ∧
        (∀ k ∈ delta, k ∈ entries.map Prod.fst) ∧
        (∀ k ∈ delta, (k, uid) ∈ db.todos.map idUser) ∧
        db2.events = db.events ++ newEvts ∧
        (∀ ev ∈ newEvts, ev.type = .STATUS_CHANGED ∧ ev.todoId ∈ delta) ∧
        (∀ k, newEvts.countP (fun ev => ev.todoId == k) = if k ∈ delta then 1 else 0) ∧
        db2.todos.map idUser = db.todos.map idUser := by
  intro entries
  induction entries with
  | nil =>
    intro db processed db2 p2 _ hrun
    unfold batchTxGo at hrun
    simp only [Except.ok.injEq, Prod.mk.injEq] at hrun
    refine ⟨[], [], ?_, ?_, ?_, ?_, ?_, ?_, ?_⟩ <;>
      simp [← hrun.1, ← hrun.2]
  | cons e rest ih =>
    intro db processed db2 p2 hnd hrun
    obtain ⟨k, s⟩ := e
    simp only [List.map_cons, List.nodup_cons] at hnd
    obtain ⟨hknotin, hndrest⟩ := hnd
    unfold batchTxGo at hrun
    cases hf : findTodo db.todos k uid with
    | none => rw [hf] at hrun; cases hrun
    | some ex =>
      rw [hf] at hrun
      dsimp only at hrun
      by_cases heq : ex.status = s
      · rw [if_pos heq] at hrun
        rcases ih db processed db2 p2 hndrest hrun with
          ⟨delta, newEvts, h1, h2, h3, h4, h5, h6, h7⟩
        exact ⟨delta, newEvts, h1, fun x hx => List.mem_cons_of_mem _ (h2 x hx),
          h3, h4, h5, h6, h7⟩
      · rw [if_neg heq] at hrun
        set db3 : DB :=
          if s = Status.DONE then
            cascadeDone
              { todos := setStatus db.todos k s,
                events := db.events ++
                  [mkEvent k .STATUS_CHANGED (statusChangedMessage ex.status s) uid] } k uid
          else
            { todos := setStatus db.todos k s,
              events := db.events ++
                [mkEvent k .STATUS_CHANGED (statusChangedMessage ex.status s) uid] }
          with hdb3
        have hev3 : db3.events = db.events ++
            [mkEvent k .STATUS_CHANGED (statusChangedMessage ex.status s) uid] := by
          rw [hdb3]
          split
          · rw [cascadeDone_events]
          · rfl
        have hmap3 : db3.todos.map idUser = db.todos.map idUser := by
          rw [hdb3]
          split
          · rw [map_idUser_cascadeDone]
            exact map_idUser_setStatus _ _ _
          · exact map_idUser_setStatus _ _ _
        rcases ih db3 (processed ++ [k]) db2 p2 hndrest hrun with
          ⟨delta, newEvts, h1, h2, h3, h4, h5, h6, h7⟩
        have hkdelta : k ∉ delta := by
          intro hcontra
          exact hknotin (h2 k hcontra)
        refine ⟨k :: delta,
          mkEvent k .STATUS_CHANGED (statusChangedMessage ex.status s) uid :: newEvts,
          ?_, ?_, ?_, ?_, ?_, ?_, ?_⟩
        · rw [h1, List.append_assoc]
          rfl
        · intro x hx
          rcases List.mem_cons.mp hx with rfl | hx2
          · exact List.mem_cons_self _ _
          · exact List.mem_cons_of_mem _ (h2 x hx2)
        · intro x hx
          rcases List.mem_cons.mp hx with rfl | hx2
          · exact findTodo_some_idUser hf
          · rw [← hmap3]
            exact h3 x hx2
        · rw [h4, hev3, List.append_assoc]
          rfl
        · intro ev hev
          rcases List.mem_cons.mp hev with rfl | hev2
          · exact ⟨rfl, List.mem_cons_self _ _⟩
          · rcases h5 ev hev2 with ⟨ht, hd⟩
            exact ⟨ht, List.mem_cons_of_mem _ hd⟩
        · intro x
          rw [List.countP_cons]
          by_cases hx : x = k
          · subst hx
            have hpred : (mkEvent x .STATUS_CHANGED
                (statusChangedMessage ex.status s) uid).todoId == x := by
              simp [mkEvent]
            rw [h6 x, if_neg hkdelta, if_pos (List.mem_cons_self _ _)]
            simp [mkEvent]
          · have hpred : ((mkEvent k .STATUS_CHANGED
                (statusChangedMessage ex.status s) uid).todoId == x) = false := by
              simp [mkEvent, Ne.symm hx]
            rw [h6 x, hpred]
            have : (x ∈ k :: delta) ↔ (x ∈ delta) := by
              constructor
              · intro h
                rcases List.mem_cons.mp h with rfl | h2
                · exact absurd rfl hx
                · exact h2
              · exact List.mem_cons_of_mem _
            by_cases hxd : x ∈ delta
            · rw [if_pos hxd, if_pos (this.mpr hxd)]
              simp
            · rw [if_neg hxd, if_neg (fun hc => hxd (this.mp hc))]
              simp
        · rw [h7, hmap3]

/-- C8: (1) the normalized update map collapses duplicate ids to their
last-specified status; (2) on a successful batch, the response data ids and
the single status_batch broadcast payload are exactly the processed (directly
targeted, actually changed) task ids — a subset of the targeted ids, so
cascaded descendants are never in the payload; (3) the appended audit events
are STATUS_CHANGED events on exactly the processed ids, one each, so no-op
entries and cascaded descendants gain no event. -/
theorem updateTodoStatusesBatch_payload (db : DB) (uid : Nat)
    (input : List (Option Int × Option JsVal)) (l m : List (Nat × Status))
    (db2 : DB) (processed : List Nat)
    (hl : parseEntries input = .ok l)
    (hparse : parseBatchUpdates input [] = .ok m)
    (hrun : batchTxGo uid db m [] = .ok (db2, processed)) :
    (∀ k, m.lookup k = (l.reverse.find? (fun e => e.1 == k)).map (fun e => e.2)) ∧
    ((updateTodoStatusesBatch db uid input).dataIds = processed) ∧
    ((updateTodoStatusesBatch db uid input).broadcasts =
      if processed.length = 0 then []
      else [⟨uid, "status_batch", processed, []⟩]) ∧
    (∀ k ∈ processed, k ∈ m.map Prod.fst) ∧
    (∃ newEvts, (updateTodoStatusesBatch db uid input).db.events = db.events ++ newEvts ∧
      (∀ ev ∈ newEvts, ev.type = .STATUS_CHANGED ∧ ev.todoId ∈ processed) ∧
      (∀ k, newEvts.countP (fun ev => ev.todoId == k) = if k ∈ processed then 1 else 0)) := by
  have hm_eq : m = l.foldl (fun mm e => mapSet mm e.1 e.2) [] := by
    have h0 := parseBatchUpdates_eq input []
    rw [hparse, hl] at h0
    simp only [Except.map] at h0
    exact (Except.ok.injEq _ _).mp h0
  have hlookup : ∀ k, m.lookup k =
      (l.reverse.find? (fun e => e.1 == k)).map (fun e => e.2) := by
    intro k
    rw [hm_eq, foldl_mapSet_lookup]
    cases hfind : l.reverse.find? (fun e => e.1 == k) with
    | some e => rfl
    | none => rfl
  have hmnd : (m.map Prod.fst).Nodup := by
    rw [hm_eq]
    exact foldl_mapSet_keys_nodup l [] (by simp)
  rcases batchTxGo_ok_spec uid m db [] db2 processed hmnd hrun with
    ⟨delta, newEvts, h1, h2, h3, h4, h5, h6, h7⟩
  have hdelta : delta = processed := by simpa using h1.symm
  rw [hdelta] at h2 h3 h5 h6
  have hresult :
      updateTodoStatusesBatch db uid input =
        (if input.length = 0 then errResult db 400 []
         else if m.length = 0 then
          { db := db, code := 200, success := true, dataIds := [],
            broadcasts := [], storage := [] }
         else if processed.length = 0 then
          { db := db2, code := 200, success := true, dataIds := [],
            broadcasts := [], storage := [] }
         else
          { db := db2, code := 200, success := true,
            dataIds := processed.filter
              (fun k => db2.todos.any (fun t => t.id == k)),
            broadcasts := [⟨uid, "status_batch",
              processed.filter (fun k => db2.todos.any (fun t => t.id == k)), []⟩],
            storage := [] }) := by
    unfold updateTodoStatusesBatch
    by_cases hinput : input.length = 0
    · simp only [if_pos hinput]
    · simp only [if_neg hinput, hparse]
      by_cases hm0 : m.length = 0
      · simp only [if_pos hm0]
      · simp only [if_neg hm0, hrun]
  have hfilter : processed.filter
      (fun k => db2.todos.any (fun t => t.id == k)) = processed := by
    rw [List.filter_eq_self]
    intro k hk
    have hmem := h3 k hk
    rw [← h7] at hmem
    rcases List.mem_map.mp hmem with ⟨t, ht, hidu⟩
    refine List.any_eq_true.mpr ⟨t, ht, ?_⟩
    have hid : t.id = k := congrArg Prod.fst hidu
    simp [hid]
  have hm0_p : m.length = 0 → processed = [] ∧ db2 = db := by
    intro hm0
    rw [List.length_eq_zero] at hm0
    rw [hm0] at hrun
    unfold batchTxGo at hrun
    simp only [Except.ok.injEq, Prod.mk.injEq] at hrun
    exact ⟨hrun.2.symm, hrun.1.symm⟩
  have hinput_m : input.length = 0 → m.length = 0 := by
    intro hi
    rw [List.length_eq_zero] at hi
    rw [hi] at hl
    have hl0 : l = [] := by
      unfold parseEntries at hl
      simpa using hl.symm
    rw [hm_eq, hl0]
    rfl
  have hco :
      (updateTodoStatusesBatch db uid input).dataIds = processed ∧
      (updateTodoStatusesBatch db uid input).broadcasts =
        (if processed.length = 0 then []
         else [⟨uid, "status_batch", processed, []⟩]) ∧
      (updateTodoStatusesBatch db uid input).db.events = db.events ++ newEvts := by
    rw [hresult]
    by_cases hinput : input.length = 0
    · rcases hm0_p (hinput_m hinput) with ⟨hp0, hdb2⟩
      rw [if_pos hinput]
      refine ⟨by simp [errResult, hp0], ?_, ?_⟩
      · rw [hp0]
        simp [errResult]
      · show db.events = db.events ++ newEvts
        rw [hdb2] at h4
        exact h4
    · rw [if_neg hinput]
      by_cases hm0 : m.length = 0
      · rcases hm0_p hm0 with ⟨hp0, hdb2⟩
        rw [if_pos hm0]
        refine ⟨by simp [hp0], ?_, ?_⟩
        · rw [hp0]
          simp
        · show db.events = db.events ++ newEvts
          rw [hdb2] at h4
          exact h4
      · rw [if_neg hm0]
        by_cases hp0 : processed.length = 0
        · rw [if_pos hp0]
          rw [List.length_eq_zero] at hp0
          exact ⟨by simp [hp0], by simp [hp0], h4⟩
        · rw [if_neg hp0]
          refine ⟨by simpa using hfilter, ?_, h4⟩
          rw [if_neg hp0]
          simp [hfilter]
  exact ⟨hlookup, hco.1, hco.2.1, fun k hk => h2 k hk,
    ⟨newEvts, hco.2.2, h5, h6⟩⟩

/-- Witness for the batch payload spec: duplicate ids collapse to the
last-specified status on a concrete input. -/
theorem updateTodoStatusesBatch_payload_witness :
    (parseEntries batchDupInput =
       Except.ok [(1, Status.DONE), (1, Status.IN_PROGRESS)] ∧
     parseBatchUpdates batchDupInput [] = Except.ok [(1, Status.IN_PROGRESS)] ∧
     batchTxGo 7 noopDb [(1, Status.IN_PROGRESS)] [] =
       Except.ok (batchDupDb2, [1])) ∧
    (∀ k, [((1 : Nat), Status.IN_PROGRESS)].lookup k =
      (([((1 : Nat), Status.DONE), (1, Status.IN_PROGRESS)].reverse.find?
        (fun e => e.1 == k)).map (fun e => e.2))) :=
  ⟨⟨rfl, rfl, rfl⟩,
   (updateTodoStatusesBatch_payload noopDb 7 batchDupInput
     [(1, Status.DONE), (1, Status.IN_PROGRESS)] [(1, Status.IN_PROGRESS)]
     batchDupDb2 [1] rfl rfl rfl).1⟩

/-! ### BFS descendant enumeration: soundness, completeness, termination -/

lemma mem_childIds_iff {todos : List Todo} {uid p x : Nat} :
    x ∈ childIds todos uid p ↔ isChildOf todos uid x p := by
  unfold childIds childrenOf isChildOf
  constructor
  · intro h
    rcases List.mem_map.mp h with ⟨t, ht, hid⟩
    rcases List.mem_filter.mp ht with ⟨htodos, hpred⟩
    simp only [Bool.and_eq_true, beq_iff_eq] at hpred
    exact ⟨t, htodos, hid, hpred.2, hpred.1⟩
  · intro ⟨t, htodos, hid, huid, hpar⟩
    refine List.mem_map.mpr ⟨t, List.mem_filter.mpr ⟨htodos, ?_⟩, hid⟩
    simp [hpar, huid]

lemma collectGo_mono (todos : List Todo) (uid : Nat) :
    ∀ (fuel : Nat) (Q acc : List Nat) (x : Nat), x ∈ acc →
      x ∈ collectGo todos uid fuel Q acc := by
  intro fuel
  induction fuel with
  | zero => intro Q acc x hx; exact hx
  | succ n ih =>
    intro Q acc x hx
    cases Q with
    | nil => exact hx
    | cons c q =>
      unfold collectGo
      exact ih _ _ x (List.mem_append_left _ hx)

lemma collectGo_closure (todos : List Todo) (uid : Nat) :
    ∀ (fuel : Nat) (Q acc : List Nat),
      completesB todos uid fuel Q = true →
      (∀ x ∈ Q, ∀ y ∈ childIds todos uid x, y ∈ collectGo todos uid fuel Q acc) ∧
      (∀ y ∈ collectGo todos uid fuel Q acc,
        y ∈ acc ∨ ∀ z ∈ childIds todos uid y, z ∈ collectGo todos uid fuel Q acc) := by
  intro fuel
  induction fuel with
  | zero =>
    intro Q acc hC
    cases Q with
    | nil =>
      refine ⟨fun x hx => absurd hx (List.not_mem_nil x), fun y hy => Or.inl hy⟩
    | cons c q => cases hC
  | succ n ih =>
    intro Q acc hC
    cases Q with
    | nil =>
      refine ⟨fun x hx => absurd hx (List.not_mem_nil x), fun y hy => Or.inl hy⟩
    | cons c q =>
      unfold collectGo
      unfold completesB at hC
      rcases ih (q ++ childIds todos uid c) (acc ++ childIds todos uid c) hC with ⟨ih1, ih2⟩
      constructor
      · intro x hx y hy
        rcases List.mem_cons.mp hx with rfl | hxq
        · exact collectGo_mono todos uid n _ _ y (List.mem_append_right _ hy)
        · exact ih1 x (List.mem_append_left _ hxq) y hy
      · intro y hy
        rcases ih2 y hy with hacc | hcl
        · rcases List.mem_append.mp hacc with h | h
          · exact Or.inl h
          · exact Or.inr (ih1 y (List.mem_append_right _ h))
        · exact Or.inr hcl

lemma collectGo_sound (todos : List Todo) (uid root : Nat) :
    ∀ (fuel : Nat) (Q acc : List Nat),
      (∀ x ∈ Q, x = root ∨ IsStrictDescendant todos uid root x) →
      (∀ x ∈ acc, IsStrictDescendant todos uid root x) →
      ∀ y ∈ collectGo todos uid fuel Q acc, IsStrictDescendant todos uid root y := by
  intro fuel
  induction fuel with
  | zero => intro Q acc _ hacc y hy; exact hacc y hy
  | succ n ih =>
    intro Q acc hQ hacc y hy
    cases Q with
    | nil => exact hacc y hy
    | cons c q =>
      unfold collectGo at hy
      refine ih (q ++ childIds todos uid c) (acc ++ childIds todos uid c) ?_ ?_ y hy
      · intro x hx
        rcases List.mem_append.mp hx with h | h
        · exact hQ x (List.mem_cons_of_mem _ h)
        · right
          rcases hQ c (List.mem_cons_self _ _) with rfl | hdesc
          · exact IsStrictDescendant.base (mem_childIds_iff.mp h)
          · exact IsStrictDescendant.step hdesc (mem_childIds_iff.mp h)
      · intro x hx
        rcases List.mem_append.mp hx with h | h
        · exact hacc x h
        · rcases hQ c (List.mem_cons_self _ _) with rfl | hdesc
          · exact IsStrictDescendant.base (mem_childIds_iff.mp h)
          · exact IsStrictDescendant.step hdesc (mem_childIds_iff.mp h)

lemma id_inj_of_uniqueIds {todos : List Todo} (hnd : UniqueIds todos)
    {a b : Todo} (ha : a ∈ todos) (hb : b ∈ todos) (h : a.id = b.id) : a = b :=
  List.inj_on_of_nodup_map hnd ha hb h

lemma unique_parent {todos : List Todo} (hnd : UniqueIds todos) {uid c p1 p2 : Nat}
    (h1 : c ∈ childIds todos uid p1) (h2 : c ∈ childIds todos uid p2) : p1 = p2 := by
  rcases mem_childIds_iff.mp h1 with ⟨t1, ht1, hid1, _, hp1⟩
  rcases mem_childIds_iff.mp h2 with ⟨t2, ht2, hid2, _, hp2⟩
  have : t1 = t2 := id_inj_of_uniqueIds hnd ht1 ht2 (by rw [hid1, hid2])
  subst this
  rw [hp1] at hp2
  exact ((Option.some.injEq _ _).mp hp2.symm).symm

lemma childIds_nodup {todos : List Todo} (hnd : UniqueIds todos) (uid p : Nat) :
    (childIds todos uid p).Nodup := by
  unfold childIds childrenOf
  have hsub : (todos.filter
      (fun t => t.parentId == some p && t.userId == uid)).map (fun t => t.id) |>.Sublist
      (todos.map (fun t => t.id)) :=
    (List.filter_sublist todos).map _
  exact hnd.sublist hsub

lemma child_rank {todos : List Todo} {rank : Nat → Nat} (hrk : RankedBy todos rank)
    {uid c p : Nat} (h : c ∈ childIds todos uid p) : rank p < rank c := by
  rcases mem_childIds_iff.mp h with ⟨t, ht, hid, _, hp⟩
  have := hrk t ht
  unfold rankOk at this
  rw [hp] at this
  rw [← hid]
  exact of_decide_eq_true this

lemma child_mem_ids {todos : List Todo} {uid c p : Nat}
    (h : c ∈ childIds todos uid p) : c ∈ todos.map (fun t => t.id) := by
  rcases mem_childIds_iff.mp h with ⟨t, ht, hid, _, _⟩
  exact List.mem_map.mpr ⟨t, ht, hid⟩

lemma filter_not_mem_length {R cs : List Nat} (hcs : ∀ x ∈ cs, x ∈ R)
    (hcsnd : cs.Nodup) (hRnd : R.Nodup) :
    (R.filter (fun x => decide (x ∉ cs))).length + cs.length = R.length := by
  classical
  have hperm := List.filter_append_perm (fun x => decide (x ∉ cs)) R
  have hlen := hperm.length_eq
  rw [List.length_append] at hlen
  have hmemlen : (R.filter (fun x => !decide (x ∉ cs))).length = cs.length := by
    have hmemfilter : R.filter (fun x => !decide (x ∉ cs)) = R.filter (fun x => decide (x ∈ cs)) := by
      apply List.filter_congr
      intro x _
      by_cases h : x ∈ cs <;> simp [h]
    rw [hmemfilter]
    have h1 : (R.filter (fun x => decide (x ∈ cs))).Nodup := hRnd.filter _
    have h2 : ∀ x, x ∈ R.filter (fun x => decide (x ∈ cs)) ↔ x ∈ cs := by
      intro x
      rw [List.mem_filter]
      constructor
      · intro ⟨_, hx⟩
        exact of_decide_eq_true hx
      · intro hx
        exact ⟨hcs x hx, decide_eq_true hx⟩
    have hperm2 : (R.filter (fun x => decide (x ∈ cs))).Perm cs := by
      apply List.perm_of_nodup_nodup_toFinset_eq h1 hcsnd
      ext x
      simp only [List.mem_toFinset]
      exact h2 x
    exact hperm2.length_eq
  omega

lemma completes_of_inv (todos : List Todo) (uid : Nat) (hnd : UniqueIds todos)
    (rank : Nat → Nat) (hrk : RankedBy todos rank) :
    ∀ (fuel : Nat) (Q R : List Nat),
      Q.Nodup → R.Nodup →
      (∀ x ∈ Q, x ∉ R) →
      (∀ p ∈ Q, ∀ c ∈ childIds todos uid p, c ∈ R) →
      (∀ p ∈ R, ∀ c ∈ childIds todos uid p, c ∈ R) →
      Q.length + R.length ≤ fuel →
      completesB todos uid fuel Q = true := by
  intro fuel
  induction fuel with
  | zero =>
    intro Q R _ _ _ _ _ hlen
    cases Q with
    | nil => rfl
    | cons c q => simp at hlen
  | succ n ih =>
    intro Q R hQnd hRnd hdisj hQR hRR hlen
    cases Q with
    | nil => rfl
    | cons c q =>
      unfold completesB
      rw [List.nodup_cons] at hQnd
      obtain ⟨hcq, hqnd⟩ := hQnd
      have hcs_sub_R : ∀ x ∈ childIds todos uid c, x ∈ R :=
        fun x hx => hQR c (List.mem_cons_self _ _) x hx
      have hcsnd : (childIds todos uid c).Nodup := childIds_nodup hnd uid c
      refine ih (q ++ childIds todos uid c)
        (R.filter (fun x => decide (x ∉ childIds todos uid c))) ?_ ?_ ?_ ?_ ?_ ?_
      · rw [List.nodup_append]
        refine ⟨hqnd, hcsnd, ?_⟩
        intro x hxq hxcs
        have hxR : x ∈ R := hcs_sub_R x hxcs
        exact hdisj x (List.mem_cons_of_mem _ hxq) hxR
      · exact hRnd.filter _
      · intro x hx hxR
        rw [List.mem_filter] at hxR
        rcases List.mem_append.mp hx with h | h
        · exact hdisj x (List.mem_cons_of_mem _ h) hxR.1
        · exact (of_decide_eq_true hxR.2) h
      · intro p hp c2 hc2
        rw [List.mem_filter]
        rcases List.mem_append.mp hp with h | h
        · refine ⟨hQR p (List.mem_cons_of_mem _ h) c2 hc2, decide_eq_true ?_⟩
          intro hcontra
          have : p = c := unique_parent hnd hc2 hcontra
          subst this
          exact hcq h
        · have hpR : p ∈ R := hcs_sub_R p h
          refine ⟨hRR p hpR c2 hc2, decide_eq_true ?_⟩
          intro hcontra
          have : p = c := unique_parent hnd hc2 hcontra
          subst this
          have := child_rank hrk h
          exact lt_irrefl _ this
      · intro p hp c2 hc2
        rw [List.mem_filter] at hp ⊢
        refine ⟨hRR p hp.1 c2 hc2, decide_eq_true ?_⟩
        intro hcontra
        have : p = c := unique_parent hnd hc2 hcontra
        subst this
        exact hdisj p (List.mem_cons_self _ _) hp.1
      · have := filter_not_mem_length hcs_sub_R hcsnd hRnd
        simp only [List.length_append, List.length_cons] at hlen ⊢
        omega

lemma completesB_main (todos : List Todo) (uid root : Nat) (hnd : UniqueIds todos)
    (rank : Nat → Nat) (hrk : RankedBy todos rank) :
    completesB todos uid (todos.length + 1) [root] = true := by
  apply completes_of_inv todos uid hnd rank hrk (todos.length + 1) [root]
    ((todos.map (fun t => t.id)).filter (fun i => decide (rank root < rank i)))
  · exact List.nodup_singleton _
  · exact hnd.filter _
  · intro x hx
    rw [List.mem_singleton] at hx
    subst hx
    intro hcontra
    rw [List.mem_filter] at hcontra
    exact lt_irrefl _ (of_decide_eq_true hcontra.2)
  · intro p hp c hc
    rw [List.mem_singleton] at hp
    subst hp
    rw [List.mem_filter]
    exact ⟨child_mem_ids hc, decide_eq_true (child_rank hrk hc)⟩
  · intro p hp c hc
    rw [List.mem_filter] at hp ⊢
    refine ⟨child_mem_ids hc, decide_eq_true ?_⟩
    exact lt_trans (of_decide_eq_true hp.2) (child_rank hrk hc)
  · have : ((todos.map (fun t => t.id)).filter
        (fun i => decide (rank root < rank i))).length ≤ todos.length := by
      calc _ ≤ (todos.map (fun t => t.id)).length := List.length_filter_le _ _
        _ = todos.length := List.length_map _ _
    simp only [List.length_singleton]
    omega

/-- Every strict descendant is collected by the BFS (with the fuel the
operation passes), on acyclic states with unique primary keys. -/
lemma collectDescendantIds_complete {todos : List Todo} {uid root : Nat}
    (hnd : UniqueIds todos) {rank : Nat → Nat} (hrk : RankedBy todos rank) :
    ∀ x, IsStrictDescendant todos uid root x →
      x ∈ collectDescendantIds todos root uid := by
  have hC := completesB_main todos uid root hnd rank hrk
  rcases collectGo_closure todos uid (todos.length + 1) [root] [] hC with ⟨hcl1, hcl2⟩
  intro x hx
  induction hx with
  | base hchild =>
    exact hcl1 root (List.mem_singleton_self _) _ (mem_childIds_iff.mpr hchild)
  | step hdesc hchild ihp =>
    rcases hcl2 _ ihp with habs | hcl
    · cases habs
    · exact hcl _ (mem_childIds_iff.mpr hchild)

/-- Everything the BFS collects is a strict descendant. -/
lemma collectDescendantIds_sound {todos : List Todo} {uid root : Nat} :
    ∀ x ∈ collectDescendantIds todos root uid, IsStrictDescendant todos uid root x := by
  intro x hx
  refine collectGo_sound todos uid root (todos.length + 1) [root] [] ?_ ?_ x hx
  · intro y hy
    rw [List.mem_singleton] at hy
    exact Or.inl hy
  · intro y hy
    cases hy

/-- The rank strictly increases along the descendant relation. -/
lemma desc_rank_lt {todos : List Todo} {uid root : Nat} {rank : Nat → Nat}
    (hrk : RankedBy todos rank) {x : Nat}
    (h : IsStrictDescendant todos uid root x) : rank root < rank x := by
  induction h with
  | base hchild => exact child_rank hrk (mem_childIds_iff.mpr hchild)
  | step _ hchild ih =>
    exact lt_trans ih (child_rank hrk (mem_childIds_iff.mpr hchild))

/-! ### The DONE cascade (C3) -/

lemma childIds_setStatus (todos : List Todo) (id : Nat) (s : Status) (uid p : Nat) :
    childIds (setStatus todos id s) uid p = childIds todos uid p := by
  unfold setStatus childIds childrenOf
  induction todos with
  | nil => rfl
  | cons t rest ih =>
    simp only [List.map_cons, List.filter_cons]
    by_cases hidt : t.id = id
    · simp only [if_pos hidt]
      cases hcond : (t.parentId == some p && t.userId == uid) with
      | true =>
        simp only [hcond, if_pos]
        rw [List.map_cons]
        congr 1
      | false =>
        simp only [hcond, Bool.false_eq_true, if_false]
        exact ih
    · simp only [if_neg hidt]
      cases hcond : (t.parentId == some p && t.userId == uid) with
      | true =>
        simp only [hcond, if_pos]
        rw [List.map_cons]
        congr 1
      | false =>
        simp only [hcond, Bool.false_eq_true, if_false]
        exact ih

lemma collectGo_congr {todos1 todos2 : List Todo} {uid : Nat}
    (h : ∀ p, childIds todos1 uid p = childIds todos2 uid p) :
    ∀ (fuel : Nat) (Q acc : List Nat),
      collectGo todos1 uid fuel Q acc = collectGo todos2 uid fuel Q acc := by
  intro fuel
  induction fuel with
  | zero => intro Q acc; rfl
  | succ n ih =>
    intro Q acc
    cases Q with
    | nil => rfl
    | cons c q =>
      unfold collectGo
      rw [h c, ih]

lemma collectDescendantIds_setStatus (todos : List Todo) (id : Nat) (s : Status)
    (root uid : Nat) :
    collectDescendantIds (setStatus todos id s) root uid =
      collectDescendantIds todos root uid := by
  unfold collectDescendantIds
  have hlen : (setStatus todos id s).length = todos.length := List.length_map _ _
  rw [hlen]
  exact collectGo_congr (childIds_setStatus todos id s uid) _ _ _

lemma setStatus_target {l : List Todo} {id : Nat} {s : Status} :
    ∀ t ∈ setStatus l id s, t.id = id → t.status = s := by
  intro t ht hid2
  unfold setStatus at ht
  rcases List.mem_map.mp ht with ⟨t0, ht0, himg⟩
  by_cases h : t0.id = id
  · rw [if_pos h] at himg
    rw [← himg]
  · rw [if_neg h] at himg
    rw [← himg] at hid2
    exact absurd hid2 h

lemma setStatusMany_target {l : List Todo} {ds : List Nat} {s : Status} :
    ∀ t ∈ setStatusMany l ds s, t.id ∈ ds → t.status = s := by
  intro t ht hid2
  unfold setStatusMany at ht
  rcases List.mem_map.mp ht with ⟨t0, ht0, himg⟩
  by_cases h : t0.id ∈ ds
  · rw [if_pos h] at himg
    rw [← himg]
  · rw [if_neg h] at himg
    rw [← himg] at hid2
    exact absurd hid2 h

lemma cascade_target {l : List Todo} {ds : List Nat} {id : Nat} :
    ∀ t ∈ setStatusMany (setStatus l id .DONE) ds .DONE, t.id = id →
      t.status = .DONE := by
  intro t ht hid2
  unfold setStatusMany at ht
  rcases List.mem_map.mp ht with ⟨t0, ht0, himg⟩
  by_cases h : t0.id ∈ ds
  · rw [if_pos h] at himg
    rw [← himg]
  · rw [if_neg h] at himg
    subst himg
    exact setStatus_target t0 ht0 hid2

/-- C3 (amended): setting a task whose current status is NOT already DONE to
DONE marks the targeted row DONE, marks every strict descendant (at every
depth, owner-scoped) DONE within the same atomic unit, and appends exactly
one audit event — a STATUS_CHANGED on the targeted task with message
"Status changed from old to DONE" — while no strict descendant coincides
with the targeted task, so no descendant gains a STATUS_CHANGED event. -/
theorem updateTodoStatus_done_cascade (db : DB) (uid : Nat) (idVal : Option Int)
    (statusVal : Option JsVal) (id : Nat) (ex : Todo) (rank : Nat → Nat)
    (hnd : UniqueIds db.todos) (hrk : RankedBy db.todos rank)
    (hid : parseTodoId idVal = .ok id)
    (hst : parseStatusRequired statusVal = .ok .DONE)
    (hfind : findTodo db.todos id uid = some ex)
    (hne : ex.status ≠ .DONE) :
    ((updateTodoStatus db uid idVal statusVal).code = 200) ∧
    (∀ t ∈ (updateTodoStatus db uid idVal statusVal).db.todos,
      t.id = id → t.status = .DONE) ∧
    (∀ x, IsStrictDescendant db.todos uid id x →
      ∀ t ∈ (updateTodoStatus db uid idVal statusVal).db.todos,
        t.id = x → t.status = .DONE) ∧
    ((updateTodoStatus db uid idVal statusVal).db.events = db.events ++
      [mkEvent id .STATUS_CHANGED (statusChangedMessage ex.status .DONE) uid]) ∧
    (∀ x, IsStrictDescendant db.todos uid id x → x ≠ id) := by
  have hres : updateTodoStatus db uid idVal statusVal =
      (let db2 : DB :=
        { todos := setStatus db.todos id .DONE,
          events := db.events ++
            [mkEvent id .STATUS_CHANGED (statusChangedMessage ex.status .DONE) uid] }
       let db3 : DB := cascadeDone db2 id uid
       { db := db3, code := 200, success := true,
         dataIds := if db3.todos.any (fun t => t.id == id) then [id] else [],
         broadcasts :=
           if db3.todos.any (fun t => t.id == id) then
             [⟨uid, "status_single", [id], []⟩]
           else [],
         storage := [] }) := by
    unfold updateTodoStatus
    simp only [hid, hst, hfind]
    rw [if_neg hne]
    simp
  rw [hres]
  dsimp only
  set db2 : DB :=
    { todos := setStatus db.todos id .DONE,
      events := db.events ++
        [mkEvent id .STATUS_CHANGED (statusChangedMessage ex.status .DONE) uid] }
    with hdb2
  have hds : collectDescendantIds db2.todos id uid =
      collectDescendantIds db.todos id uid := by
    rw [hdb2]
    exact collectDescendantIds_setStatus db.todos id .DONE id uid
  have hcas : cascadeDone db2 id uid =
      (if 0 < (collectDescendantIds db.todos id uid).length then
        { db2 with todos :=
            setStatusMany db2.todos (collectDescendantIds db.todos id uid) .DONE }
       else db2) := by
    unfold cascadeDone
    rw [hds]
  rw [hcas]
  refine ⟨?_, ?_, ?_, ?_, ?_⟩
  · rfl
  · intro t ht hid2
    split at ht
    · exact cascade_target t ht hid2
    · exact setStatus_target t ht hid2
  · intro x hx t ht hid2
    have hxds : x ∈ collectDescendantIds db.todos id uid :=
      collectDescendantIds_complete hnd hrk x hx
    have hpos : 0 < (collectDescendantIds db.todos id uid).length :=
      List.length_pos_of_mem hxds
    rw [if_pos hpos] at ht
    exact setStatusMany_target t ht (hid2 ▸ hxds)
  · split <;> rfl
  · intro x hx hcontra
    subst hcontra
    exact lt_irrefl _ (desc_rank_lt hrk hx)

/-- C3 counterexample: setting an ALREADY-DONE task's status to DONE is the
no-op path — the TODO child is not cascaded to DONE and zero STATUS_CHANGED
events are appended, contradicting the claim's unconditional reading. -/
theorem updateTodoStatus_already_done_cex :
    doneParent.status = Status.DONE ∧
    todoChild.parentId = some doneParent.id ∧
    todoChild.userId = doneParent.userId ∧
    todoChild.status = Status.TODO ∧
    updateTodoStatus doneDb 7 (some 1) (some (JsVal.str "DONE")) =
      { db := doneDb, code := 200, success := true, dataIds := [1],
        broadcasts := [], storage := [] } :=
  ⟨rfl, rfl, rfl, rfl, rfl⟩

/-- Witness for the amended DONE cascade on a concrete three-level chain. -/
theorem updateTodoStatus_done_cascade_witness :
    (UniqueIds chainDb.todos ∧ RankedBy chainDb.todos (fun n => n) ∧
     parseTodoId (some 1) = Except.ok 1 ∧
     parseStatusRequired (some (JsVal.str "DONE")) = Except.ok Status.DONE ∧
     findTodo chainDb.todos 1 7 = some chainA ∧ chainA.status ≠ Status.DONE) ∧
    ((updateTodoStatus chainDb 7 (some 1) (some (JsVal.str "DONE"))).db.events =
      chainDb.events ++
        [mkEvent 1 .STATUS_CHANGED (statusChangedMessage chainA.status .DONE) 7]) :=
  ⟨⟨by decide, by decide, rfl, rfl, rfl, by decide⟩,
   (updateTodoStatus_done_cascade chainDb 7 (some 1) (some (JsVal.str "DONE")) 1 chainA
      (fun n => n) (by decide) (by decide) rfl rfl rfl (by decide)).2.2.2.1⟩

/-! ### updateTodo: locality, subtodo dates, validation effects (C2, C5, C9) -/

lemma updateParentTimelines_events :
    ∀ (fuel : Nat) (pid : Option Nat) (d : DB),
      (updateParentTimelines d fuel pid).events = d.events := by
  intro fuel
  induction fuel with
  | zero =>
    intro pid d
    cases pid with
    | none => rfl
    | some p =>
      unfold updateParentTimelines
      by_cases hp : p = 0
      · rw [if_pos hp]
      · rw [if_neg hp]
        cases hf : d.todos.find? (fun t => t.id == p) with
        | none => rfl
        | some parent => rfl
  | succ n ih =>
    intro pid d
    cases pid with
    | none => rfl
    | some p =>
      unfold updateParentTimelines
      by_cases hp : p = 0
      · rw [if_pos hp]
      · rw [if_neg hp]
        cases hf : d.todos.find? (fun t => t.id == p) with
        | none => rfl
        | some parent =>
          dsimp only
          rw [ih]

lemma updateRow_other {todos : List Todo} {id : Nat} {u : Updates} :
    ∀ t ∈ todos, t.id ≠ id → t ∈ updateRow todos id u := by
  intro t ht hne
  unfold updateRow
  exact List.mem_map.mpr ⟨t, ht, by rw [if_neg hne]⟩

/-- C2 (amended): the update operation touches only the edited task — every
audit event it appends carries the edited task's id (so when the timeline
fields change, the single TIMELINE_UPDATED event lands on the edited task
itself, not on its parent), and every other row of the table is left in
place, so no ancestor's window is recomputed or written.  Furthermore the
recursive helper updateParentTimelines — which no controller invokes —
never appends an audit event at all. -/
theorem updateTodo_self_contained (db : DB) (uid : Nat) (idVal : Option Int)
    (body : UpdateBody) (file : Option String) (id : Nat)
    (hid : parseTodoId idVal = .ok id) :
    (∃ newEvts, (updateTodo db uid idVal body file).db.events = db.events ++ newEvts ∧
      ∀ ev ∈ newEvts, ev.todoId = id) ∧
    (∀ t ∈ db.todos, t.id ≠ id → t ∈ (updateTodo db uid idVal body file).db.todos) ∧
    (∀ (d : DB) (fuel : Nat) (pid : Option Nat),
      (updateParentTimelines d fuel pid).events = d.events) := by
  refine ⟨?_, ?_, fun d fuel pid => updateParentTimelines_events fuel pid d⟩
  · unfold updateTodo
    simp only [hid]
    (repeat' split) <;>
      first
      | (refine ⟨_, rfl, ?_⟩
         intro ev hev
         rcases List.mem_append.mp hev with h | h <;>
           first
           | (rw [List.mem_singleton] at h
              subst h
              rfl)
           | cases h
           | (split at h
              · rw [List.mem_singleton] at h
                subst h
                rfl
              · cases h))
      | exact ⟨[], by simp [errResult], fun ev hev => absurd hev (List.not_mem_nil ev)⟩
  · unfold updateTodo
    simp only [hid]
    (repeat' split) <;>
      intro t ht hne <;>
      first
      | exact updateRow_other t ht hne
      | exact ht

/-- C2 counterexample: editing the dated leaf child 11 of parent 10 changes
the parent's derived window per the rollup calculator, yet the code appends
no event on the parent (the TIMELINE_UPDATED event goes to 11) and leaves
parent 10's stored row byte-identical — no recomputation, no write-back. -/
theorem updateTodo_no_parent_recompute_cex :
    (tlDb.todos.filter (fun t => t.parentId == some 11)) = [] ∧
    tlChild.parentId = some 10 ∧
    computeTimelineFromSubtodos
        ((updateTodo tlDb 7 (some 11) tlBody none).db.todos.filter
          (fun t => t.parentId == some 10)) ≠
      computeTimelineFromSubtodos (tlDb.todos.filter (fun t => t.parentId == some 10)) ∧
    ((updateTodo tlDb 7 (some 11) tlBody none).db.events.filter
      (fun e => e.todoId == 10)) = [] ∧
    ((updateTodo tlDb 7 (some 11) tlBody none).db.todos.filter
      (fun t => t.id == 10)) = [tlParent] := by
  refine ⟨rfl, rfl, by decide, by decide, by decide⟩

lemma datesStep_subtodo {ex : Todo} {sdF edF : Option JsVal}
    {sU eU : Option (Option Int)} {tl : Bool}
    (h : datesStep true ex sdF edF = .ok (sU, eU, tl)) :
    (sU = none ∨ sU = some none) ∧ (eU = none ∨ eU = some none) := by
  unfold datesStep at h
  simp only [if_pos] at h
  have h2 := (Except.ok.injEq _ _).mp h
  have hs : sU = (if sdF.isSome && ex.startDate.isSome then some none else none) :=
    (congrArg Prod.fst h2).symm
  have he : eU = (if edF.isSome && ex.endDate.isSome then some none else none) :=
    (congrArg Prod.fst (congrArg Prod.snd h2)).symm
  constructor
  · rw [hs]
    split
    · exact Or.inr rfl
    · exact Or.inl rfl
  · rw [he]
    split
    · exact Or.inr rfl
    · exact Or.inl rfl

/-- C5 (amended): the guard is parent-based, not children-based.  For a task
that has a parent (a subtodo), a supplied start/end date is never applied:
after any update call the row's stored date is either its previous value or
cleared to null — never a caller-supplied value.  (A parentless task accepts
direct date edits even when it has children; see the counterexample.) -/
theorem updateTodo_subtodo_never_accepts_dates (db : DB) (uid : Nat)
    (idVal : Option Int) (body : UpdateBody) (file : Option String)
    (id : Nat) (ex : Todo)
    (hnd : UniqueIds db.todos)
    (hid : parseTodoId idVal = .ok id)
    (hfind : findTodo db.todos id uid = some ex)
    (hsub : jsTruthyId ex.parentId = true) :
    ∀ t ∈ (updateTodo db uid idVal body file).db.todos, t.id = id →
      (t.startDate = ex.startDate ∨ t.startDate = none) ∧
      (t.endDate = ex.endDate ∨ t.endDate = none) := by
  have hexmem := findTodo_some_mem hfind
  have hself : ∀ t ∈ db.todos, t.id = id → t = ex := by
    intro t ht hid2
    exact id_inj_of_uniqueIds hnd ht hexmem.1 (by rw [hid2, hexmem.2.1])
  have herr : ∀ (c : Nat) (ops : List StorageOp),
      ∀ t ∈ (errResult db c ops).db.todos, t.id = id →
        (t.startDate = ex.startDate ∨ t.startDate = none) ∧
        (t.endDate = ex.endDate ∨ t.endDate = none) := by
    intro c ops t ht hid2
    simp only [errResult] at ht
    have := hself t ht hid2
    subst this
    exact ⟨Or.inl rfl, Or.inl rfl⟩
  unfold updateTodo
  simp only [hid, hfind, hsub]
  rcases himgs : imageStep ex file body.imageUrl with ⟨ops, imgU, imgCh⟩
  cases hts : titleStep ex body.title with
  | error c =>
    exact herr c ops
  | ok tp =>
    obtain ⟨ttlU, ttlCh⟩ := tp
    cases hdsc : descStep ex body.description with
    | error c =>
      exact herr c ops
    | ok dp =>
      obtain ⟨dscU, dscCh⟩ := dp
      cases hdt : datesStep true ex body.startDate body.endDate with
      | error c =>
        exact herr c ops
      | ok trip =>
        obtain ⟨sU, eU, tl⟩ := trip
        rcases datesStep_subtodo hdt with ⟨hsU, heU⟩
        dsimp only
        by_cases hempty :
            ({ imageUrlU := imgU, titleU := ttlU, descriptionU := dscU,
               startDateU := sU, endDateU := eU } : Updates).isEmpty = true
        · rw [if_pos hempty]
          exact herr 400 ops
        · rw [if_neg hempty]
          intro t ht hid2
          have ht2 : t ∈ updateRow db.todos id
              { imageUrlU := imgU, titleU := ttlU, descriptionU := dscU,
                startDateU := sU, endDateU := eU } := ht
          unfold updateRow at ht2
          rcases List.mem_map.mp ht2 with ⟨t0, ht0, himg2⟩
          by_cases hidt0 : t0.id = id
          · have ht0ex : t0 = ex := hself t0 ht0 hidt0
            subst ht0ex
            rw [if_pos hidt0] at himg2
            subst himg2
            unfold applyUpdates
            constructor
            · rcases hsU with h | h <;> rw [h]
              · exact Or.inl rfl
              · exact Or.inr rfl
            · rcases heU with h | h <;> rw [h]
              · exact Or.inl rfl
              · exact Or.inr rfl
          · rw [if_neg hidt0] at himg2
            subst himg2
            exact absurd hid2 hidt0

/-- C5 counterexample: task 1 has a child (task 2), yet a direct edit of its
startDate is accepted with HTTP 200 and the new date is written — not
rejected as a validation error. -/
theorem updateTodo_parent_accepts_dates_cex :
    (cx5Db.todos.filter (fun t => t.parentId == some 1)).length = 1 ∧
    (updateTodo cx5Db 7 (some 1) cx5Body none).code = 200 ∧
    (updateTodo cx5Db 7 (some 1) cx5Body none).success = true ∧
    ((updateTodo cx5Db 7 (some 1) cx5Body none).db.todos.filter
      (fun t => t.id == 1)).map (fun t => t.startDate) = [some 5] := by
  refine ⟨rfl, rfl, rfl, by decide⟩

/-- C9 (amended): when createTodo reports a 400 validation error, no row has
been written, no audit event appended, no broadcast emitted and no object
storage traffic has happened; when updateTodo reports a 400 validation
error, no row has been written, no audit event appended and no broadcast
emitted — but object-storage uploads/deletions from the image block may
already have occurred (see the counterexample). -/
theorem validation_error_effects (db : DB) (uid : Nat) :
    (∀ (cbody : CreateBody) (file : Option String),
      (createTodo db uid cbody file).code = 400 →
      (createTodo db uid cbody file).db = db ∧
      (createTodo db uid cbody file).storage = [] ∧
      (createTodo db uid cbody file).broadcasts = []) ∧
    (∀ (idVal : Option Int) (body : UpdateBody) (file : Option String),
      (updateTodo db uid idVal body file).code = 400 →
      (updateTodo db uid idVal body file).db = db ∧
      (updateTodo db uid idVal body file).broadcasts = []) := by
  have hfc : ∀ (s : String) (d : Option JsVal) (p : Option Todo) (sd ed : Option Int)
      (st : Option Status) (f : Option String),
      (finishCreate db uid s d p sd ed st f).code = 201 := fun _ _ _ _ _ _ _ => rfl
  constructor
  · intro cbody file
    unfold createTodo
    (repeat' first | split | dsimp only) <;> intro h <;>
      first
      | exact ⟨rfl, rfl, rfl⟩
      | ((try rw [hfc] at h); (try dsimp only at h); exact absurd h (by decide))
  · intro idVal body file
    unfold updateTodo
    (repeat' first | split | dsimp only) <;> intro h <;>
      first
      | exact ⟨rfl, rfl⟩
      | ((try dsimp only at h); exact absurd h (by decide))

/-- C9 counterexample: an update carrying an image removal plus a
whitespace-only title is rejected as a 400 validation error with the
database untouched, yet the old image has already been deleted from object
storage before the validation ran. -/
theorem updateTodo_storage_before_validation_cex :
    (updateTodo img9Db 7 (some 1) img9Body none).code = 400 ∧
    (updateTodo img9Db 7 (some 1) img9Body none).db = img9Db ∧
    (updateTodo img9Db 7 (some 1) img9Body none).storage =
      [StorageOp.delete "old.png"] := by
  refine ⟨rfl, rfl, by decide⟩

/-- Concrete instance of the C2 theorem: editing the leaf (id 11) of tlDb
puts every new audit event on task 11, keeps every other row, and
updateParentTimelines never appends events. -/
theorem updateTodo_self_contained_witness :
    (∃ newEvts, (updateTodo tlDb 7 (some 11) tlBody none).db.events = tlDb.events ++ newEvts ∧
      ∀ ev ∈ newEvts, ev.todoId = 11) ∧
    (∀ t ∈ tlDb.todos, t.id ≠ 11 → t ∈ (updateTodo tlDb 7 (some 11) tlBody none).db.todos) ∧
    (∀ (d : DB) (fuel : Nat) (pid : Option Nat),
      (updateParentTimelines d fuel pid).events = d.events) :=
  updateTodo_self_contained tlDb 7 (some 11) tlBody none 11 rfl

/-- Concrete instance of the C5 theorem: task 11 of tlDb is a subtodo, so a
supplied start date is never applied to its row. -/
theorem updateTodo_subtodo_never_accepts_dates_witness :
    UniqueIds tlDb.todos ∧ parseTodoId (some 11) = Except.ok 11 ∧
    findTodo tlDb.todos 11 7 = some tlChild ∧ jsTruthyId tlChild.parentId = true ∧
    (∀ t ∈ (updateTodo tlDb 7 (some 11) tlBody none).db.todos, t.id = 11 →
      (t.startDate = tlChild.startDate ∨ t.startDate = none) ∧
      (t.endDate = tlChild.endDate ∨ t.endDate = none)) :=
  ⟨by decide, rfl, by decide, rfl,
    updateTodo_subtodo_never_accepts_dates tlDb 7 (some 11) tlBody none 11 tlChild
      (by decide) rfl (by decide) rfl⟩

/-- Concrete instance of the C9 theorem: the img9Db update is a 400
validation error and leaves the database and the broadcast list untouched. -/
theorem validation_error_effects_witness :
    (updateTodo img9Db 7 (some 1) img9Body none).code = 400 ∧
    ((updateTodo img9Db 7 (some 1) img9Body none).db = img9Db ∧
      (updateTodo img9Db 7 (some 1) img9Body none).broadcasts = []) :=
  ⟨rfl, (validation_error_effects img9Db 7).2 (some 1) img9Body none rfl⟩

end BackendTodo
